import Mathlib

/-!
Verification of the CUTLASS predicated tile access iterator
(`include/cutlass/transform/threadblock/predicated_tile_access_iterator.h`).

The development shallowly embeds the pitch-linear specialization of
`PredicatedTileAccessIterator`, its predicate engine
`PredicatedTileAccessIteratorPredicates`, and the layout-adapter
specializations (row-major, interleaved).  C++ `int` / `LongIndex` values are
modelled as `Int` (no overflow occurs in the modelled computations), loop
counters that only ever hold non-negative values are modelled as `Nat`, the
fixed-size `uint32_t predicates_[kPredicateWordCount]` array is modelled as a
`List Nat` of that length, and byte pointers are modelled as integer
addresses.  C++ `/` and `%` on possibly-negative operands are modelled with
`Int.tdiv` / `Int.tmod` (truncation towards zero).
-/

namespace CutlassPTAI

/-- Pitch-linear logical coordinate: `layout::PitchLinearCoord`, a pair of a
contiguous-axis index and a strided-axis index (C++ `int`). -/
structure TensorCoord where
  contiguous : Int
  strided : Int
deriving DecidableEq

instance : Add TensorCoord :=
  ⟨fun a b => ⟨a.contiguous + b.contiguous, a.strided + b.strided⟩⟩

/-- Matrix logical coordinate: `cutlass::MatrixCoord`, a (row, column) pair.
Used by the row-major / column-major / interleaved layout adapters. -/
structure MatrixCoord where
  row : Int
  column : Int
deriving DecidableEq

/-- Compile-time configuration of one pitch-linear iterator instantiation: the
template parameters `Shape`, `ThreadMap` (its `Iterations`, `Delta`,
`kElementsPerAccess` and `initial_offset` members), `AccessType::kElements`,
`AdvanceRank`, `sizeof_bits<Element>`, and the `Gather` / `Permute` flags.
`initialOffset` is the external thread-map collaborator's
`ThreadMap::initial_offset(thread_id)`. -/
structure Config where
  shapeContiguous : Nat
  shapeStrided : Nat
  itersContiguous : Nat
  itersStrided : Nat
  deltaContiguous : Nat
  deltaStrided : Nat
  elementsPerAccess : Nat
  accessElements : Nat
  advanceRank : Nat
  elementBits : Nat
  gather : Bool
  permute : Bool
  initialOffset : Int → TensorCoord

/-- `kAccessesPerVector = ThreadMap::kElementsPerAccess / AccessType::kElements`. -/
def Config.accessesPerVector (cfg : Config) : Nat :=
  cfg.elementsPerAccess / cfg.accessElements

/-- `ThreadMap::Iterations::kCount = Iterations::kContiguous * Iterations::kStrided`. -/
def Config.iterationsCount (cfg : Config) : Nat :=
  cfg.itersContiguous * cfg.itersStrided

/-- `kPredicateCount = ThreadMap::Iterations::kCount * kAccessesPerVector`. -/
def Config.predicateCount (cfg : Config) : Nat :=
  cfg.iterationsCount * cfg.accessesPerVector

/-- `kPredicateByteCount = (kPredicateCount + kPredicatesPerByte - 1) / kPredicatesPerByte`
with `kPredicatesPerByte = 4`. -/
def Config.predicateByteCount (cfg : Config) : Nat :=
  (cfg.predicateCount + 3) / 4

/-- `kPredicateWordCount = (kPredicateByteCount + 3) / 4`. -/
def Config.predicateWordCount (cfg : Config) : Nat :=
  (cfg.predicateByteCount + 3) / 4

/-- Well-formedness of a configuration: positive iteration counts and an
advance rank of 0 or 1 (the `static_assert`ed preconditions of the template). -/
def Config.wf (cfg : Config) : Prop :=
  0 < cfg.accessesPerVector ∧ 0 < cfg.itersContiguous ∧ 0 < cfg.itersStrided ∧
    (cfg.advanceRank = 0 ∨ cfg.advanceRank = 1)

instance (cfg : Config) : Decidable cfg.wf := by
  unfold Config.wf; infer_instance

/-- The word index `pred_idx / kPredicatesPerWord` of a predicate index
(`kPredicatesPerWord = 16`). -/
def wordIdx (i : Nat) : Nat := i / 16

/-- The bit position `byte_idx * 8 + bit_idx` inside a predicate word, where
`byte_idx = (i % 16) / 4` and `bit_idx = (i % 16) % 4`: four used predicate
bits per byte, four bytes per 32-bit word. -/
def bitPos (i : Nat) : Nat := (i % 16 / 4) * 8 + i % 16 % 4

/-- The guard computed for one `access_idx` by
`PredicatedTileAccessIteratorPredicates::compute_predicates_`: the access
coordinate is `thread_offset_ + iteration_coord`, checked on both axes in the
non-steady-state phase and on the non-advance axis only in steady state. -/
def guardFor (cfg : Config) (toff ext : TensorCoord) (steady : Bool)
    (accessIdx : Nat) : Bool :=
  let s := accessIdx / (cfg.itersContiguous * cfg.accessesPerVector)
  let accessResidual := accessIdx % (cfg.itersContiguous * cfg.accessesPerVector)
  let c := accessResidual / cfg.accessesPerVector
  let v := accessResidual % cfg.accessesPerVector
  let coord : TensorCoord :=
    toff + ⟨(c * cfg.deltaContiguous + v * cfg.accessElements : Nat),
            (s * cfg.deltaStrided : Nat)⟩
  if steady then
    if cfg.advanceRank = 0 then
      coord.strided < ext.strided
    else
      coord.contiguous < ext.contiguous
  else
    coord.strided < ext.strided ∧ coord.contiguous < ext.contiguous

/-- One iteration of the loop body of `compute_predicates_`: decompose
`access_idx` into `(s, c, v)`, compute the guard, and OR the guard bit into
the word at `pred_idx = v + kAccessesPerVector * (c + Iterations::kContiguous * s)`. -/
def computeStep (cfg : Config) (toff ext : TensorCoord) (steady : Bool)
    (words : List Nat) (accessIdx : Nat) : List Nat :=
  let s := accessIdx / (cfg.itersContiguous * cfg.accessesPerVector)
  let accessResidual := accessIdx % (cfg.itersContiguous * cfg.accessesPerVector)
  let c := accessResidual / cfg.accessesPerVector
  let v := accessResidual % cfg.accessesPerVector
  let guard := guardFor cfg toff ext steady accessIdx
  let predIdx := v + cfg.accessesPerVector * (c + cfg.itersContiguous * s)
  words.set (wordIdx predIdx)
    (words.getD (wordIdx predIdx) 0 ||| ((if guard then 1 else 0) <<< bitPos predIdx))

/-- `PredicatedTileAccessIteratorPredicates::compute_predicates_(extent,
is_steady_state)`: zero all predicate words, then set one guard bit per
`access_idx < kPredicateCount`. -/
def computePredicatesWords (cfg : Config) (toff ext : TensorCoord)
    (steady : Bool) : List Nat :=
  (List.range cfg.predicateCount).foldl (computeStep cfg toff ext steady)
    (List.replicate cfg.predicateWordCount 0)

/-- State of `PredicatedTileAccessIteratorPredicates`: predicate word array,
tensor extent, per-thread offset, residue offset and the three iteration
indices.  `recomputeCount` is a ghost counter incremented at every call of
`compute_predicates_`, used to state the phase-once recomputation property. -/
structure Preds where
  predicates : List Nat
  extent : TensorCoord
  threadOffset : TensorCoord
  residueOffset : TensorCoord
  iterationVector : Nat
  iterationContiguous : Nat
  iterationStrided : Nat
  recomputeCount : Nat
deriving DecidableEq

/-- `compute_predicates_` as a state transformer on `Preds` (also bumps the
ghost recomputation counter). -/
def Preds.compute_predicates (cfg : Config) (p : Preds) (ext : TensorCoord)
    (steady : Bool) : Preds :=
  { p with
    predicates := computePredicatesWords cfg p.threadOffset ext steady
    recomputeCount := p.recomputeCount + 1 }

/-- `set_iteration_index(index)`: split a linear access index into the
(vector, contiguous, strided) cursor. -/
def Preds.set_iteration_index (cfg : Config) (p : Preds) (index : Nat) : Preds :=
  { p with
    iterationVector := index % cfg.accessesPerVector
    iterationContiguous :=
      index / cfg.accessesPerVector % cfg.itersContiguous
    iterationStrided :=
      index / cfg.accessesPerVector / cfg.itersContiguous }

/-- `set_predicates(thread_id, threadblock_offset)`: compute the residue
offset and residue extent along the advance rank (the residue size is the
remaining extent modulo the tile shape, defaulting to a full tile if the
remainder is zero), set the thread offset from the thread map, recompute
predicates in non-steady-state mode against the residue extent, and reset the
cursor.  `residueInfo` is the residue-offset / residue-extent pair computed
at the top of `set_predicates`: the residue size along the advance rank is
the remaining extent modulo the tile shape, defaulting to a full tile step
when the remainder is exactly zero. -/
def residueInfo (cfg : Config) (extent tbOffset : TensorCoord) :
    TensorCoord × TensorCoord :=
  if cfg.advanceRank ≠ 0 then
    let residueSize0 := Int.tmod (extent.strided - tbOffset.strided) cfg.shapeStrided
    let residueSize := if residueSize0 = 0 then (cfg.shapeStrided : Int) else residueSize0
    (⟨0, residueSize⟩,
     ⟨extent.contiguous, min (tbOffset.strided + residueSize) extent.strided⟩)
  else
    let residueSize0 := Int.tmod (extent.contiguous - tbOffset.contiguous) cfg.shapeContiguous
    let residueSize := if residueSize0 = 0 then (cfg.shapeContiguous : Int) else residueSize0
    (⟨residueSize, 0⟩,
     ⟨min extent.contiguous (tbOffset.contiguous + residueSize), extent.strided⟩)

/-- The body of `set_predicates`, with the residue offset / residue extent
pair of `residueInfo` inlined. -/
def setPredicates (cfg : Config) (extent : TensorCoord) (threadId : Int)
    (tbOffset : TensorCoord) : Preds :=
  let residuePair := residueInfo cfg extent tbOffset
  let toff := tbOffset + cfg.initialOffset threadId
  let p : Preds :=
    { predicates := []
      extent := extent
      threadOffset := toff
      residueOffset := residuePair.1
      iterationVector := 0
      iterationContiguous := 0
      iterationStrided := 0
      recomputeCount := 0 }
  (p.compute_predicates cfg residuePair.2 false).set_iteration_index cfg 0

/-- `clear_mask(enable)`: zero every predicate word when `enable` is true,
leave the mask unchanged otherwise. -/
def Preds.clear_mask (p : Preds) (enable : Bool) : Preds :=
  { p with predicates := p.predicates.map (fun w => if enable then 0 else w) }

/-- `enable_mask()`: set every predicate word to `0xffffffff`. -/
def Preds.enable_mask (p : Preds) : Preds :=
  { p with predicates := p.predicates.map (fun _ => 0xffffffff) }

/-- `set_mask(mask)`: copy `kPredicateWordCount` words from the given mask
into the predicate array. -/
def Preds.set_mask (cfg : Config) (p : Preds) (mask : List Nat) : Preds :=
  { p with
    predicates := (List.range cfg.predicateWordCount).map (fun i => mask.getD i 0) }

/-- `get_mask(mask)`: copy the `kPredicateWordCount` predicate words out. -/
def Preds.get_mask (cfg : Config) (p : Preds) : List Nat :=
  (List.range cfg.predicateWordCount).map (fun i => p.predicates.getD i 0)

/-- `valid()`: read the predicate bit of the current cursor at linear index
`iteration_vector_ + kAccessesPerVector * (iteration_contiguous_ +
iteration_strided_ * Iterations::kContiguous)`, addressed by word, byte and
bit within the word. -/
def Preds.valid (cfg : Config) (p : Preds) : Bool :=
  let predIdx := p.iterationVector +
    cfg.accessesPerVector *
      (p.iterationContiguous + p.iterationStrided * cfg.itersContiguous)
  (p.predicates.getD (wordIdx predIdx) 0 &&& (1 <<< bitPos predIdx)) != 0

/-- Byte offset of a pointer offset given in units of `Element`:
`sizeof_bits<Element>::value * pointer_offset / 8` (C++ truncating division;
also the meaning of `OffsetBytes<Element>`). -/
def toBytes (cfg : Config) (off : Int) : Int :=
  Int.tdiv ((cfg.elementBits : Int) * off) 8

/-- The pitch-linear layout function `layout::PitchLinear::operator()`:
`coord.contiguous() + LongIndex(coord.strided()) * stride`. -/
def layoutFn (stride : Int) (coord : TensorCoord) : Int :=
  coord.contiguous + coord.strided * stride

/-- Modelled from the spec: the `Params` object of the pitch-linear iterator
derives from `PredicatedTileAccessIteratorParams`, whose definition lives in
`predicated_tile_access_iterator_params.h` and is not part of this source
snapshot.  Per spec section 4.2 it holds the tensor stride and precomputed
byte increments: from one strided row of accesses to the next
(`inc_strided_`), from the first access of one tile to the first access of
the next tile along the advance rank (`inc_advance_`), and from the last
access of a tile to the first access of the next tile (`inc_next_`). -/
structure Params where
  stride : Int
  incStrided : Int
  incNext : Int
  incAdvance : Int
deriving DecidableEq

/-- Modelled from the spec: construction of `Params` from the tensor stride,
per spec section 4.2.  `inc_strided_` is the byte delta of one thread-map
strided step; `inc_advance_` is one whole tile along the advance rank
(`Shape::kStrided` rows for advance rank 1, `Shape::kContiguous` elements for
advance rank 0); `inc_next_` moves from the last strided row of accesses of a
tile to the first access of the next tile, so it equals `inc_advance_` minus
the `Iterations::kStrided - 1` strided steps already taken inside the tile
(this is the formula the in-source `AffineRankN<2>` params use for their
analogous increments). -/
def paramsOf (cfg : Config) (stride : Int) : Params :=
  let incStrided := toBytes cfg (stride * cfg.deltaStrided)
  let incAdvance :=
    if cfg.advanceRank ≠ 0 then
      toBytes cfg ((cfg.shapeStrided : Int) * stride)
    else
      toBytes cfg (cfg.shapeContiguous : Int)
  { stride := stride
    incStrided := incStrided
    incNext := incAdvance - ((cfg.itersStrided : Int) - 1) * incStrided
    incAdvance := incAdvance }

/-- State of the pitch-linear `PredicatedTileAccessIterator`: the predicate
engine, the params, the byte pointer (an integer address), the residue-tile
flag, the gather index array (`int const *indices_`, modelled as a function),
the permutation function `permute_layout_` (modelled as the coordinate-to-
offset map it implements), and the tracked coordinate `coord_offset_`. -/
structure Iterator where
  thePredicates : Preds
  params : Params
  pointer : Int
  isResidueTile : Bool
  indices : Int → Int
  permuteFn : TensorCoord → Int
  coordOffset : TensorCoord

/-- `add_pointer_offset(pointer_offset)`: advance the byte pointer by an
offset given in elements. -/
def Iterator.add_pointer_offset (cfg : Config) (it : Iterator) (off : Int) :
    Iterator :=
  { it with pointer := it.pointer + toBytes cfg off }

/-- The pitch-linear iterator constructor: record the extent, run
`set_predicates(thread_id, threadblock_offset)`, then offset the pointer to
the thread's starting element — directly via the layout on the fast path, or
record `coord_offset_` (and a contiguous-only pointer offset when not
permuting) on the gather/permute path. -/
def construct (cfg : Config) (params : Params) (base : Int)
    (extent : TensorCoord) (threadId : Int) (tbOffset : TensorCoord)
    (indices : Int → Int) (permuteFn : TensorCoord → Int) : Iterator :=
  let p := setPredicates cfg extent threadId tbOffset
  let it : Iterator :=
    { thePredicates := p
      params := params
      pointer := base
      isResidueTile := true
      indices := indices
      permuteFn := permuteFn
      coordOffset := ⟨0, 0⟩ }
  if ¬cfg.gather ∧ ¬cfg.permute then
    it.add_pointer_offset cfg (layoutFn params.stride p.threadOffset)
  else
    let it := { it with coordOffset := p.threadOffset }
    if ¬cfg.permute then
      it.add_pointer_offset cfg (layoutFn params.stride ⟨p.threadOffset.contiguous, 0⟩)
    else
      it

/-- `add_tile_offset(tile_offset)`: on the first call (residue tile) shift
the thread offset by the residue, recompute predicates in steady-state mode
against the original extent, apply the residue pointer correction and a
`tile_offset - 1` advance; on every later call apply only the precomputed
per-tile increments.  The gather/permute path updates the tracked coordinate
instead of the pointer where applicable. -/
def Iterator.add_tile_offset (cfg : Config) (it : Iterator)
    (tileOffset : TensorCoord) : Iterator :=
  let it' :=
    if it.isResidueTile then
      let p := it.thePredicates
      let p := { p with threadOffset := p.threadOffset + p.residueOffset }
      let p := p.compute_predicates cfg p.extent true
      let it := { it with thePredicates := p }
      if ¬cfg.gather ∧ ¬cfg.permute then
        let it := it.add_pointer_offset cfg (layoutFn it.params.stride p.residueOffset)
        if cfg.advanceRank ≠ 0 then
          { it with pointer := it.pointer + it.params.incAdvance * (tileOffset.strided - 1)
              + Int.tdiv ((cfg.shapeContiguous : Int) * tileOffset.contiguous * cfg.elementBits) 8 }
        else
          { it with pointer := it.pointer + it.params.incAdvance * (tileOffset.contiguous - 1)
              + Int.tdiv ((cfg.shapeStrided : Int) * tileOffset.strided * cfg.elementBits) 8 }
      else
        let it := { it with coordOffset :=
          { it.coordOffset with strided := p.threadOffset.strided
              + (cfg.shapeStrided : Int) * (tileOffset.strided - cfg.advanceRank) } }
        if ¬cfg.permute then
          let it := it.add_pointer_offset cfg
            (layoutFn it.params.stride ⟨p.residueOffset.contiguous, 0⟩)
          it.add_pointer_offset cfg
            ((cfg.shapeContiguous : Int) * (tileOffset.contiguous - (1 - cfg.advanceRank)))
        else
          { it with coordOffset :=
            { it.coordOffset with contiguous := p.threadOffset.contiguous
                + (cfg.shapeContiguous : Int) * (tileOffset.contiguous - (1 - cfg.advanceRank)) } }
    else
      if ¬cfg.gather ∧ ¬cfg.permute then
        if cfg.advanceRank ≠ 0 then
          { it with pointer := it.pointer + it.params.incAdvance * tileOffset.strided
              + (cfg.shapeContiguous : Int) * tileOffset.contiguous }
        else
          { it with pointer := it.pointer + it.params.incAdvance * tileOffset.contiguous
              + (cfg.shapeStrided : Int) * tileOffset.strided }
      else
        let it := { it with coordOffset :=
          { it.coordOffset with strided := it.coordOffset.strided
              + (cfg.shapeStrided : Int) * tileOffset.strided } }
        if ¬cfg.permute then
          it.add_pointer_offset cfg ((cfg.shapeContiguous : Int) * tileOffset.contiguous)
        else
          { it with coordOffset :=
            { it.coordOffset with contiguous := it.coordOffset.contiguous
                + (cfg.shapeContiguous : Int) * tileOffset.contiguous } }
  { it' with isResidueTile := false }

/-- `operator++`: nested cursor increment — vector, then contiguous, then
strided — with the precomputed pointer increments applied on the fast path;
wrapping out of the strided axis applies `inc_next_` and retracts
`inc_advance_`, returning the pointer to the start of the current tile. -/
def Iterator.incr (cfg : Config) (it : Iterator) : Iterator :=
  let p := it.thePredicates
  let v := p.iterationVector + 1
  if v < cfg.accessesPerVector then
    { it with thePredicates := { p with iterationVector := v } }
  else
    let c := p.iterationContiguous + 1
    if c < cfg.itersContiguous then
      { it with thePredicates :=
        { p with iterationVector := 0, iterationContiguous := c } }
    else
      let s := p.iterationStrided + 1
      if s < cfg.itersStrided then
        { it with
          thePredicates :=
            { p with iterationVector := 0, iterationContiguous := 0,
                     iterationStrided := s }
          pointer :=
            if ¬cfg.gather ∧ ¬cfg.permute then it.pointer + it.params.incStrided
            else it.pointer }
      else
        { it with
          thePredicates :=
            { p with iterationVector := 0, iterationContiguous := 0,
                     iterationStrided := 0 }
          pointer :=
            if ¬cfg.gather ∧ ¬cfg.permute then
              it.pointer + it.params.incNext - it.params.incAdvance
            else it.pointer }

/-- Byte size of one `AccessType` vector (`sizeof(AccessType)` for a
byte-aligned element type), by which `AccessType *` pointer arithmetic steps. -/
def accessBytes (cfg : Config) : Nat := cfg.accessElements * cfg.elementBits / 8

/-- `get()`: on the gather/permute path, return null (`none`) for an invalid
access, otherwise resolve the offset from the tracked coordinate, the index
array and/or the permutation function; on the fast path, return the pointer
plus the contiguous-iteration byte delta plus `iteration_vector_` steps of
`AccessType *` arithmetic. -/
def Iterator.get (cfg : Config) (it : Iterator) : Option Int :=
  let p := it.thePredicates
  if cfg.gather ∨ cfg.permute then
    if ¬p.valid cfg then
      none
    else
      let coordContig : Int :=
        (if cfg.permute then it.coordOffset.contiguous else 0)
          + p.iterationContiguous * cfg.deltaContiguous
          + p.iterationVector * cfg.accessElements
      let coordStrided : Int :=
        it.coordOffset.strided + p.iterationStrided * cfg.deltaStrided
      let coordStrided := if cfg.gather then it.indices coordStrided else coordStrided
      let offset : Int :=
        if cfg.permute then it.permuteFn ⟨coordContig, coordStrided⟩
        else coordStrided * it.params.stride + coordContig
      some (it.pointer + toBytes cfg offset)
  else
    some (it.pointer
      + Int.tdiv ((p.iterationContiguous : Int) * ((cfg.deltaContiguous : Nat) * cfg.elementBits : Nat)) 8
      + p.iterationVector * accessBytes cfg)

/-- The mask operations of the iterator delegate to the predicate engine. -/
def Iterator.clear_mask (it : Iterator) (enable : Bool) : Iterator :=
  { it with thePredicates := it.thePredicates.clear_mask enable }

/-- `enable_mask()` on the iterator. -/
def Iterator.enable_mask (it : Iterator) : Iterator :=
  { it with thePredicates := it.thePredicates.enable_mask }

/-- `set_mask(mask)` on the iterator. -/
def Iterator.set_mask (cfg : Config) (it : Iterator) (mask : List Nat) : Iterator :=
  { it with thePredicates := it.thePredicates.set_mask cfg mask }

/-- `get_mask(mask)` on the iterator. -/
def Iterator.get_mask (cfg : Config) (it : Iterator) : List Nat :=
  it.thePredicates.get_mask cfg

/-- `valid()` on the iterator. -/
def Iterator.valid (cfg : Config) (it : Iterator) : Bool :=
  it.thePredicates.valid cfg

/-- `set_iteration_index` on the iterator. -/
def Iterator.set_iteration_index (cfg : Config) (it : Iterator) (index : Nat) :
    Iterator :=
  { it with thePredicates := it.thePredicates.set_iteration_index cfg index }

/-- Number of accesses in one tile traversal
(`kAccessesPerVector * Iterations::kContiguous * Iterations::kStrided`). -/
def Config.accessesPerTile (cfg : Config) : Nat :=
  cfg.accessesPerVector * cfg.itersContiguous * cfg.itersStrided

/-- The unit tile step along the advance rank, the `tile_offset` a kernel
loop passes to `add_tile_offset` to move to the next tile. -/
def Config.unitTile (cfg : Config) : TensorCoord :=
  if cfg.advanceRank = 0 then ⟨1, 0⟩ else ⟨0, 1⟩

/-- One full tile advance as performed by the consuming kernel loop:
`operator++` once per access of the tile, then `add_tile_offset` by one tile
along the advance rank. -/
def tileAdvance (cfg : Config) (it : Iterator) : Iterator :=
  (Iterator.incr cfg)^[cfg.accessesPerTile] it |>.add_tile_offset cfg cfg.unitTile

/-- Component of a coordinate along the advance rank. -/
def advCoord (cfg : Config) (x : TensorCoord) : Int :=
  if cfg.advanceRank = 0 then x.contiguous else x.strided

/-- Tile shape along the advance rank. -/
def advShape (cfg : Config) : Nat :=
  if cfg.advanceRank = 0 then cfg.shapeContiguous else cfg.shapeStrided

/-- One whole tile step along the advance rank, as a coordinate delta. -/
def advTileVec (cfg : Config) : TensorCoord :=
  if cfg.advanceRank = 0 then ⟨(cfg.shapeContiguous : Int), 0⟩
  else ⟨0, (cfg.shapeStrided : Int)⟩

/-- Scalar multiple of a coordinate by a natural number. -/
def TensorCoord.nsmul (n : Nat) (x : TensorCoord) : TensorCoord :=
  ⟨(n : Int) * x.contiguous, (n : Int) * x.strided⟩

/-! ### Layout adapters

The row-major, column-major and interleaved specializations of
`PredicatedTileAccessIterator` hold a single underlying pitch-linear
iterator (instantiated at the transposed shape and, for row-major layouts,
the flipped advance rank) and delegate every operation to it.  `cfg` below is
the configuration of that underlying pitch-linear instantiation.  Only the
constructors and `add_tile_offset` translate coordinates; everything else
forwards unchanged. -/

/-- Row-major constructor: delegates with extent and threadblock offset
mapped to pitch-linear as `(column, row)`. -/
def rm_construct (cfg : Config) (params : Params) (base : Int)
    (extent : MatrixCoord) (threadId : Int) (tbOffset : MatrixCoord)
    (indices : Int → Int) (permuteFn : TensorCoord → Int) : Iterator :=
  construct cfg params base ⟨extent.column, extent.row⟩ threadId
    ⟨tbOffset.column, tbOffset.row⟩ indices permuteFn

/-- Row-major `add_tile_offset`: delegates with the tile offset transposed. -/
def rm_add_tile_offset (cfg : Config) (it : Iterator) (t : MatrixCoord) :
    Iterator :=
  it.add_tile_offset cfg ⟨t.column, t.row⟩

/-- Column-major constructor: delegates with extent and threadblock offset
mapped to pitch-linear as `(row, column)`. -/
def cm_construct (cfg : Config) (params : Params) (base : Int)
    (extent : MatrixCoord) (threadId : Int) (tbOffset : MatrixCoord)
    (indices : Int → Int) (permuteFn : TensorCoord → Int) : Iterator :=
  construct cfg params base ⟨extent.row, extent.column⟩ threadId
    ⟨tbOffset.row, tbOffset.column⟩ indices permuteFn

/-- Column-major `add_tile_offset`: delegates with `(row, column)`. -/
def cm_add_tile_offset (cfg : Config) (it : Iterator) (t : MatrixCoord) :
    Iterator :=
  it.add_tile_offset cfg ⟨t.row, t.column⟩

/-- Row-major-interleaved constructor: the contiguous extent is the column
count scaled by the interleave factor and the strided extent is the row
count divided by it (C++ `int` division). -/
def rmi_construct (cfg : Config) (K : Nat) (params : Params) (base : Int)
    (extent : MatrixCoord) (threadId : Int) (tbOffset : MatrixCoord)
    (indices : Int → Int) (permuteFn : TensorCoord → Int) : Iterator :=
  construct cfg params base
    ⟨extent.column * (K : Int), Int.tdiv extent.row (K : Int)⟩ threadId
    ⟨tbOffset.column * (K : Int), Int.tdiv tbOffset.row (K : Int)⟩
    indices permuteFn

/-- Row-major-interleaved `add_tile_offset`: transposed tile offset. -/
def rmi_add_tile_offset (cfg : Config) (it : Iterator) (t : MatrixCoord) :
    Iterator :=
  it.add_tile_offset cfg ⟨t.column, t.row⟩

/-- Column-major-interleaved constructor: the contiguous extent is the row
count scaled by the interleave factor and the strided extent is the column
count divided by it. -/
def cmi_construct (cfg : Config) (K : Nat) (params : Params) (base : Int)
    (extent : MatrixCoord) (threadId : Int) (tbOffset : MatrixCoord)
    (indices : Int → Int) (permuteFn : TensorCoord → Int) : Iterator :=
  construct cfg params base
    ⟨extent.row * (K : Int), Int.tdiv extent.column (K : Int)⟩ threadId
    ⟨tbOffset.row * (K : Int), Int.tdiv tbOffset.column (K : Int)⟩
    indices permuteFn

/-- Column-major-interleaved `add_tile_offset`: untransposed tile offset. -/
def cmi_add_tile_offset (cfg : Config) (it : Iterator) (t : MatrixCoord) :
    Iterator :=
  it.add_tile_offset cfg ⟨t.row, t.column⟩

/-- One operation of the iterator interface, with coordinates in the
adapter's (row, column) system. -/
inductive MatrixOp where
  | step : MatrixOp
  | tile : MatrixCoord → MatrixOp
  | clearMaskOp : Bool → MatrixOp
  | enableMaskOp : MatrixOp
  | setMaskOp : List Nat → MatrixOp
  | pointerOffset : Int → MatrixOp
  | iterIndex : Nat → MatrixOp

/-- One operation of the canonical pitch-linear iterator interface. -/
inductive PLOp where
  | step : PLOp
  | tile : TensorCoord → PLOp
  | clearMaskOp : Bool → PLOp
  | enableMaskOp : PLOp
  | setMaskOp : List Nat → PLOp
  | pointerOffset : Int → PLOp
  | iterIndex : Nat → PLOp

/-- Interpret one pitch-linear operation. -/
def plApply (cfg : Config) (it : Iterator) : PLOp → Iterator
  | PLOp.step => it.incr cfg
  | PLOp.tile t => it.add_tile_offset cfg t
  | PLOp.clearMaskOp b => it.clear_mask b
  | PLOp.enableMaskOp => it.enable_mask
  | PLOp.setMaskOp m => it.set_mask cfg m
  | PLOp.pointerOffset off => it.add_pointer_offset cfg off
  | PLOp.iterIndex i => it.set_iteration_index cfg i

/-- Interpret one operation through the row-major adapter. -/
def rmApply (cfg : Config) (it : Iterator) : MatrixOp → Iterator
  | MatrixOp.step => it.incr cfg
  | MatrixOp.tile t => rm_add_tile_offset cfg it t
  | MatrixOp.clearMaskOp b => it.clear_mask b
  | MatrixOp.enableMaskOp => it.enable_mask
  | MatrixOp.setMaskOp m => it.set_mask cfg m
  | MatrixOp.pointerOffset off => it.add_pointer_offset cfg off
  | MatrixOp.iterIndex i => it.set_iteration_index cfg i

/-- The coordinate translation the row-major adapter performs on each
operation: tile offsets are transposed, everything else is unchanged. -/
def rmOpToPL : MatrixOp → PLOp
  | MatrixOp.step => PLOp.step
  | MatrixOp.tile t => PLOp.tile ⟨t.column, t.row⟩
  | MatrixOp.clearMaskOp b => PLOp.clearMaskOp b
  | MatrixOp.enableMaskOp => PLOp.enableMaskOp
  | MatrixOp.setMaskOp m => PLOp.setMaskOp m
  | MatrixOp.pointerOffset off => PLOp.pointerOffset off
  | MatrixOp.iterIndex i => PLOp.iterIndex i

/-- Run a sequence of pitch-linear operations. -/
def plRun (cfg : Config) (it : Iterator) (ops : List PLOp) : Iterator :=
  ops.foldl (plApply cfg) it

/-- Run a sequence of operations through the row-major adapter. -/
def rmRun (cfg : Config) (it : Iterator) (ops : List MatrixOp) : Iterator :=
  ops.foldl (rmApply cfg) it

/-! ### Concrete configurations used in witnesses and counterexamples -/

/-- A minimal strided-advance configuration whose single thread sits at
strided offset 2 inside a 4-row tile. -/
def cfgA : Config :=
  { shapeContiguous := 4, shapeStrided := 4
    itersContiguous := 1, itersStrided := 1
    deltaContiguous := 1, deltaStrided := 1
    elementsPerAccess := 1, accessElements := 1
    advanceRank := 1, elementBits := 32
    gather := false, permute := false
    initialOffset := fun _ => ⟨0, 2⟩ }

/-- A small strided-advance configuration with two accesses per vector and a
2-by-2 iteration grid. -/
def cfgB : Config :=
  { shapeContiguous := 8, shapeStrided := 2
    itersContiguous := 2, itersStrided := 2
    deltaContiguous := 4, deltaStrided := 1
    elementsPerAccess := 2, accessElements := 1
    advanceRank := 1, elementBits := 32
    gather := false, permute := false
    initialOffset := fun _ => ⟨0, 0⟩ }

/-- A contiguous-advance configuration whose thread map enumerates each of
the tile's four contiguous positions once. -/
def cfgC : Config :=
  { shapeContiguous := 4, shapeStrided := 2
    itersContiguous := 4, itersStrided := 2
    deltaContiguous := 1, deltaStrided := 1
    elementsPerAccess := 1, accessElements := 1
    advanceRank := 0, elementBits := 32
    gather := false, permute := false
    initialOffset := fun _ => ⟨0, 0⟩ }

/-- A gather-enabled variant of `cfgA`. -/
def cfgG : Config :=
  { cfgA with gather := true, initialOffset := fun _ => ⟨0, 0⟩ }

/-- A permute-enabled variant of `cfgA`. -/
def cfgP : Config :=
  { cfgA with permute := true, initialOffset := fun _ => ⟨0, 0⟩ }

/-! ### Bit-level readback of the packed predicate words -/

/-- Reading one predicate bit out of the packed word array: bit
`bitPos i` of word `wordIdx i`. -/
def readBit (words : List Nat) (i : Nat) : Bool :=
  (words.getD (wordIdx i) 0).testBit (bitPos i)

/-- The iteration coordinate of a cursor triple, as formed by
`compute_predicates_`:
`(c * Delta::kContiguous + v * AccessType::kElements, s * Delta::kStrided)`. -/
def accessCoord (cfg : Config) (v c s : Nat) : TensorCoord :=
  ⟨(c * cfg.deltaContiguous + v * cfg.accessElements : Nat),
   (s * cfg.deltaStrided : Nat)⟩

/-- The guard of a cursor triple: a 2D bounds check in the non-steady-state
phase, a single-axis check (the non-advance axis) in steady state. -/
def guardAtCursor (cfg : Config) (toff ext : TensorCoord) (steady : Bool)
    (v c s : Nat) : Bool :=
  let coord := toff + accessCoord cfg v c s
  if steady then
    if cfg.advanceRank = 0 then
      coord.strided < ext.strided
    else
      coord.contiguous < ext.contiguous
  else
    coord.strided < ext.strided ∧ coord.contiguous < ext.contiguous

/-- The linear predicate index of a cursor triple. -/
def linIdx (cfg : Config) (v c s : Nat) : Nat :=
  v + cfg.accessesPerVector * (c + cfg.itersContiguous * s)

theorem TensorCoord.add_contiguous (a b : TensorCoord) :
    (a + b).contiguous = a.contiguous + b.contiguous := rfl

theorem TensorCoord.add_strided (a b : TensorCoord) :
    (a + b).strided = a.strided + b.strided := rfl

theorem getD_set_self {l : List Nat} {i : Nat} {a : Nat} (h : i < l.length) :
    (l.set i a).getD i 0 = a := by
  rw [List.getD_eq_getElem?_getD, List.getElem?_set_self h]; rfl

theorem getD_set_ne {l : List Nat} {i j : Nat} {a : Nat} (h : i ≠ j) :
    (l.set i a).getD j 0 = l.getD j 0 := by
  rw [List.getD_eq_getElem?_getD, List.getElem?_set_ne h,
    ← List.getD_eq_getElem?_getD]

theorem and_shift_ne_eq_testBit (x n : Nat) :
    (x &&& (1 <<< n) != 0) = x.testBit n := by
  rw [Nat.shiftLeft_eq, one_mul, Nat.and_two_pow]
  cases h : x.testBit n <;> simp [h, Nat.pow_eq_zero]

/-- The word/bit address is injective: two predicate indices with the same
word index and the same bit position are equal. -/
theorem idx_inj {a b : Nat} (hw : wordIdx a = wordIdx b)
    (hb : bitPos a = bitPos b) : a = b := by
  unfold wordIdx at hw
  unfold bitPos at hb
  omega

/-- The loop of `compute_predicates_` stores the bit for `access_idx` at
linear predicate index `access_idx` itself: the decomposition into
`(s, c, v)` followed by `pred_idx = v + kAccessesPerVector * (c +
Iterations::kContiguous * s)` is the identity. -/
theorem predIdx_eq_accessIdx (cfg : Config) (a : Nat) :
    a % (cfg.itersContiguous * cfg.accessesPerVector) % cfg.accessesPerVector
      + cfg.accessesPerVector *
        (a % (cfg.itersContiguous * cfg.accessesPerVector) / cfg.accessesPerVector
          + cfg.itersContiguous * (a / (cfg.itersContiguous * cfg.accessesPerVector)))
      = a := by
  set D := cfg.itersContiguous * cfg.accessesPerVector with hD
  set ar := a % D with har
  have h1 : ar % cfg.accessesPerVector + cfg.accessesPerVector * (ar / cfg.accessesPerVector) = ar :=
    Nat.mod_add_div ar cfg.accessesPerVector
  have h2 : a % D + D * (a / D) = a := Nat.mod_add_div a D
  calc ar % cfg.accessesPerVector
        + cfg.accessesPerVector * (ar / cfg.accessesPerVector
            + cfg.itersContiguous * (a / D))
      = (ar % cfg.accessesPerVector + cfg.accessesPerVector * (ar / cfg.accessesPerVector))
          + cfg.accessesPerVector * (cfg.itersContiguous * (a / D)) := by ring
    _ = ar + D * (a / D) := by rw [h1, hD]; ring
    _ = a := h2

theorem computeStep_length (cfg : Config) (toff ext : TensorCoord)
    (steady : Bool) (words : List Nat) (a : Nat) :
    (computeStep cfg toff ext steady words a).length = words.length := by
  unfold computeStep
  exact List.length_set ..

theorem foldl_computeStep_length (cfg : Config) (toff ext : TensorCoord)
    (steady : Bool) (l : List Nat) (ws : List Nat) :
    (l.foldl (computeStep cfg toff ext steady) ws).length = ws.length := by
  induction l generalizing ws with
  | nil => rfl
  | cons x xs ih => rw [List.foldl_cons, ih, computeStep_length]

/-- Effect of one loop iteration of `compute_predicates_` on a single stored
bit: the iteration for `access_idx = a` ORs the guard of `a` into the bit
addressed by `a` and leaves every other bit unchanged. -/
theorem readBit_computeStep (cfg : Config) (toff ext : TensorCoord)
    (steady : Bool) (words : List Nat)
    (hlen : words.length = cfg.predicateWordCount) (a j : Nat)
    (hj : j < cfg.predicateWordCount * 16)
    (ha : a < cfg.predicateWordCount * 16) :
    readBit (computeStep cfg toff ext steady words a) j =
      (readBit words j || (decide (j = a) && guardFor cfg toff ext steady a)) := by
  unfold computeStep readBit
  dsimp only
  rw [predIdx_eq_accessIdx]
  by_cases hw : wordIdx a = wordIdx j
  · have hwlt : wordIdx a < words.length := by
      rw [hlen]; unfold wordIdx; omega
    rw [hw, getD_set_self (hw ▸ hwlt), ← hw]
    rw [Nat.testBit_or]
    by_cases hja : j = a
    · subst hja
      rw [hw]
      cases hg : guardFor cfg toff ext steady j
      · simp [Nat.shiftLeft_eq, Nat.zero_testBit]
      · simp [Nat.shiftLeft_eq, one_mul, Nat.testBit_two_pow]
    · have hbne : bitPos a ≠ bitPos j := fun hb => hja (idx_inj hw hb).symm
      have hshift : ((if guardFor cfg toff ext steady a then 1 else 0) <<< bitPos a).testBit (bitPos j) = false := by
        cases hg : guardFor cfg toff ext steady a
        · simp [Nat.shiftLeft_eq, Nat.zero_testBit]
        · simp [Nat.shiftLeft_eq, one_mul, Nat.testBit_two_pow]
          omega
      rw [hw, hshift]
      simp [hja]
  · rw [getD_set_ne hw]
    have hja : j ≠ a := fun h => hw (by rw [h])
    simp [hja, readBit]

/-- After the first `n` iterations of the `compute_predicates_` loop, bit `j`
holds the guard of access `j` when `j < n` and is still clear otherwise. -/
theorem readBit_foldRange (cfg : Config) (toff ext : TensorCoord)
    (steady : Bool) (n : Nat) (hn : n ≤ cfg.predicateWordCount * 16) :
    ∀ j < cfg.predicateWordCount * 16,
      readBit ((List.range n).foldl (computeStep cfg toff ext steady)
          (List.replicate cfg.predicateWordCount 0)) j =
        (decide (j < n) && guardFor cfg toff ext steady j) := by
  induction n with
  | zero =>
    intro j _
    unfold readBit
    have : (List.replicate cfg.predicateWordCount (0 : Nat)).getD (wordIdx j) 0 = 0 := by
      rw [List.getD_eq_getElem?_getD, List.getElem?_replicate]
      split <;> rfl
    simp [this, Nat.zero_testBit]
  | succ m ih =>
    intro j hj
    rw [List.range_succ, List.foldl_append, List.foldl_cons, List.foldl_nil]
    rw [readBit_computeStep cfg toff ext steady _
      (by rw [foldl_computeStep_length]; exact List.length_replicate ..) m j hj
      (by omega)]
    rw [ih (by omega) j hj]
    by_cases hjm : j = m
    · subst hjm
      simp
    · have h1 : decide (j < m + 1) = decide (j < m) := by
        cases Nat.lt_or_ge j m with
        | inl h => simp [h, Nat.lt_succ_of_lt h]
        | inr h =>
          have h2 : ¬ j < m := Nat.not_lt.mpr h
          have h3 : ¬ j < m + 1 := by omega
          simp [h2, h3]
      simp [hjm, h1]

/-- `kPredicateCount ≤ kPredicateWordCount * 16`: every predicate fits the
word array (the code guarantees this through `kPredicateWordCount`'s
round-up definition). -/
theorem predicateCount_le (cfg : Config) :
    cfg.predicateCount ≤ cfg.predicateWordCount * 16 := by
  unfold Config.predicateWordCount Config.predicateByteCount
  omega

/-- Readback of the freshly computed predicate words at any in-range access
index: the stored bit is exactly the guard of that access. -/
theorem readBit_computePredicatesWords (cfg : Config) (toff ext : TensorCoord)
    (steady : Bool) (j : Nat) (hj : j < cfg.predicateCount) :
    readBit (computePredicatesWords cfg toff ext steady) j =
      guardFor cfg toff ext steady j := by
  unfold computePredicatesWords
  rw [readBit_foldRange cfg toff ext steady cfg.predicateCount
    (predicateCount_le cfg) j (lt_of_lt_of_le hj (predicateCount_le cfg))]
  simp [hj]

/-- An in-range cursor triple has an in-range linear predicate index. -/
theorem linIdx_lt (cfg : Config) {v c s : Nat} (hv : v < cfg.accessesPerVector)
    (hc : c < cfg.itersContiguous) (hs : s < cfg.itersStrided) :
    linIdx cfg v c s < cfg.predicateCount := by
  unfold linIdx Config.predicateCount Config.iterationsCount
  have h1 : c + cfg.itersContiguous * s + 1 ≤ cfg.itersContiguous * cfg.itersStrided := by
    calc c + cfg.itersContiguous * s + 1
        ≤ cfg.itersContiguous + cfg.itersContiguous * s := by omega
      _ = cfg.itersContiguous * (s + 1) := by ring
      _ ≤ cfg.itersContiguous * cfg.itersStrided :=
          Nat.mul_le_mul_left _ hs
  calc v + cfg.accessesPerVector * (c + cfg.itersContiguous * s)
      < cfg.accessesPerVector * (c + cfg.itersContiguous * s + 1) := by
        have h2 : cfg.accessesPerVector * (c + cfg.itersContiguous * s + 1)
            = cfg.accessesPerVector * (c + cfg.itersContiguous * s)
              + cfg.accessesPerVector := by ring
        omega
    _ ≤ cfg.accessesPerVector * (cfg.itersContiguous * cfg.itersStrided) :=
        Nat.mul_le_mul_left _ h1
    _ = cfg.itersContiguous * cfg.itersStrided * cfg.accessesPerVector := by ring

/-- Decomposing the linear index of an in-range cursor recovers the cursor,
so the guard computed for it by the `compute_predicates_` loop is the guard
of the cursor triple. -/
theorem guardFor_linIdx (cfg : Config) (toff ext : TensorCoord) (steady : Bool)
    {v c s : Nat} (hv : v < cfg.accessesPerVector)
    (hc : c < cfg.itersContiguous) (hs : s < cfg.itersStrided) :
    guardFor cfg toff ext steady (linIdx cfg v c s) =
      guardAtCursor cfg toff ext steady v c s := by
  unfold guardFor guardAtCursor linIdx accessCoord
  have hD : v + cfg.accessesPerVector * (c + cfg.itersContiguous * s)
      = (v + cfg.accessesPerVector * c)
        + (cfg.itersContiguous * cfg.accessesPerVector) * s := by ring
  have hvc : v + cfg.accessesPerVector * c < cfg.itersContiguous * cfg.accessesPerVector := by
    calc v + cfg.accessesPerVector * c
        < cfg.accessesPerVector * (c + 1) := by
          have h2 : cfg.accessesPerVector * (c + 1)
              = cfg.accessesPerVector * c + cfg.accessesPerVector := by ring
          omega
      _ ≤ cfg.accessesPerVector * cfg.itersContiguous := Nat.mul_le_mul_left _ hc
      _ = cfg.itersContiguous * cfg.accessesPerVector := Nat.mul_comm ..
  have hdiv : (v + cfg.accessesPerVector * (c + cfg.itersContiguous * s))
      / (cfg.itersContiguous * cfg.accessesPerVector) = s := by
    rw [hD, Nat.add_mul_div_left _ _ (by omega), Nat.div_eq_of_lt hvc, Nat.zero_add]
  have hmod : (v + cfg.accessesPerVector * (c + cfg.itersContiguous * s))
      % (cfg.itersContiguous * cfg.accessesPerVector)
      = v + cfg.accessesPerVector * c := by
    rw [hD, Nat.add_mul_mod_self_left, Nat.mod_eq_of_lt hvc]
  have hc2 : (v + cfg.accessesPerVector * c) / cfg.accessesPerVector = c := by
    rw [Nat.add_mul_div_left _ _ (by omega), Nat.div_eq_of_lt hv, Nat.zero_add]
  have hv2 : (v + cfg.accessesPerVector * c) % cfg.accessesPerVector = v := by
    rw [Nat.add_mul_mod_self_left, Nat.mod_eq_of_lt hv]
  dsimp only
  rw [hdiv, hmod, hc2, hv2]

/-- `valid()` is the bit read at the cursor's linear index: the bit-packing
layout used by the writer (`compute_predicates_`) and the reader (`valid`)
agree word-for-word and bit-for-bit. -/
theorem valid_eq_readBit (cfg : Config) (p : Preds) :
    p.valid cfg =
      readBit p.predicates
        (linIdx cfg p.iterationVector p.iterationContiguous p.iterationStrided) := by
  unfold Preds.valid readBit linIdx
  dsimp only
  rw [Nat.mul_comm p.iterationStrided cfg.itersContiguous]
  exact and_shift_ne_eq_testBit ..

/-- `valid()` on freshly recomputed predicates at an in-range cursor is
exactly the guard of that cursor. -/
theorem valid_computePredicates (cfg : Config) (p : Preds)
    (toff ext : TensorCoord) (steady : Bool)
    (hp : p.predicates = computePredicatesWords cfg toff ext steady)
    (hv : p.iterationVector < cfg.accessesPerVector)
    (hc : p.iterationContiguous < cfg.itersContiguous)
    (hs : p.iterationStrided < cfg.itersStrided) :
    p.valid cfg =
      guardAtCursor cfg toff ext steady
        p.iterationVector p.iterationContiguous p.iterationStrided := by
  rw [valid_eq_readBit, hp,
    readBit_computePredicatesWords cfg toff ext steady _ (linIdx_lt cfg hv hc hs),
    guardFor_linIdx cfg toff ext steady hv hc hs]

/-! ### Cursor dynamics of `operator++` -/

theorem succ_mod_div_of_lt {k m : Nat} (h : k % m + 1 < m) :
    (k + 1) % m = k % m + 1 ∧ (k + 1) / m = k / m := by
  have hm : 0 < m := by omega
  have hk : k + 1 = k % m + 1 + m * (k / m) := by
    calc k + 1 = k % m + m * (k / m) + 1 := by rw [Nat.mod_add_div]
      _ = k % m + 1 + m * (k / m) := by ring
  constructor
  · rw [hk, Nat.add_mul_mod_self_left, Nat.mod_eq_of_lt h]
  · rw [hk, Nat.add_mul_div_left _ _ hm, Nat.div_eq_of_lt h, Nat.zero_add]

theorem succ_mod_div_of_wrap {k m : Nat} (h : k % m + 1 = m) :
    (k + 1) % m = 0 ∧ (k + 1) / m = k / m + 1 := by
  have hm : 0 < m := by omega
  have hk : k + 1 = m * (k / m + 1) := by
    calc k + 1 = k % m + m * (k / m) + 1 := by rw [Nat.mod_add_div]
      _ = m * (k / m) + (k % m + 1) := by ring
      _ = m * (k / m) + m := by rw [h]
      _ = m * (k / m + 1) := by ring
  constructor
  · rw [hk, Nat.mul_mod_right]
  · rw [hk, Nat.mul_div_cancel_left _ hm]

/-- `operator++` touches only the cursor and the pointer: the predicate
words, the offsets, the residue flag, the parameters and the tracked
coordinate are all left unchanged. -/
theorem incr_preserves (cfg : Config) (it : Iterator) :
    ((it.incr cfg).thePredicates.predicates = it.thePredicates.predicates) ∧
    ((it.incr cfg).thePredicates.threadOffset = it.thePredicates.threadOffset) ∧
    ((it.incr cfg).thePredicates.extent = it.thePredicates.extent) ∧
    ((it.incr cfg).thePredicates.residueOffset = it.thePredicates.residueOffset) ∧
    ((it.incr cfg).thePredicates.recomputeCount = it.thePredicates.recomputeCount) ∧
    ((it.incr cfg).isResidueTile = it.isResidueTile) ∧
    ((it.incr cfg).params = it.params) ∧
    ((it.incr cfg).coordOffset = it.coordOffset) ∧
    ((it.incr cfg).indices = it.indices) ∧
    ((it.incr cfg).permuteFn = it.permuteFn) := by
  unfold Iterator.incr
  dsimp only
  split_ifs <;> exact ⟨rfl, rfl, rfl, rfl, rfl, rfl, rfl, rfl, rfl, rfl⟩

theorem incr_iterate_preserves (cfg : Config) (it : Iterator) (k : Nat) :
    (((Iterator.incr cfg)^[k] it).thePredicates.predicates = it.thePredicates.predicates) ∧
    (((Iterator.incr cfg)^[k] it).thePredicates.threadOffset = it.thePredicates.threadOffset) ∧
    (((Iterator.incr cfg)^[k] it).thePredicates.extent = it.thePredicates.extent) ∧
    (((Iterator.incr cfg)^[k] it).thePredicates.residueOffset = it.thePredicates.residueOffset) ∧
    (((Iterator.incr cfg)^[k] it).thePredicates.recomputeCount = it.thePredicates.recomputeCount) ∧
    (((Iterator.incr cfg)^[k] it).isResidueTile = it.isResidueTile) ∧
    (((Iterator.incr cfg)^[k] it).params = it.params) ∧
    (((Iterator.incr cfg)^[k] it).coordOffset = it.coordOffset) ∧
    (((Iterator.incr cfg)^[k] it).indices = it.indices) ∧
    (((Iterator.incr cfg)^[k] it).permuteFn = it.permuteFn) := by
  induction k with
  | zero => exact ⟨rfl, rfl, rfl, rfl, rfl, rfl, rfl, rfl, rfl, rfl⟩
  | succ m ih =>
    rw [Function.iterate_succ_apply']
    obtain ⟨h1, h2, h3, h4, h5, h6, h7, h8, h9, h10⟩ :=
      incr_preserves cfg ((Iterator.incr cfg)^[m] it)
    exact ⟨h1.trans ih.1, h2.trans ih.2.1, h3.trans ih.2.2.1, h4.trans ih.2.2.2.1,
      h5.trans ih.2.2.2.2.1, h6.trans ih.2.2.2.2.2.1, h7.trans ih.2.2.2.2.2.2.1,
      h8.trans ih.2.2.2.2.2.2.2.1, h9.trans ih.2.2.2.2.2.2.2.2.1,
      h10.trans ih.2.2.2.2.2.2.2.2.2⟩

/-- Closed form of the cursor after `k` applications of `operator++` starting
from a zeroed cursor: the nested vector/contiguous/strided counters count `k`
in mixed radix. -/
theorem incr_iterate_cursor (cfg : Config) (hwf : cfg.wf) (it : Iterator)
    (hv0 : it.thePredicates.iterationVector = 0)
    (hc0 : it.thePredicates.iterationContiguous = 0)
    (hs0 : it.thePredicates.iterationStrided = 0) (k : Nat) :
    (((Iterator.incr cfg)^[k] it).thePredicates.iterationVector
        = k % cfg.accessesPerVector) ∧
    (((Iterator.incr cfg)^[k] it).thePredicates.iterationContiguous
        = k / cfg.accessesPerVector % cfg.itersContiguous) ∧
    (((Iterator.incr cfg)^[k] it).thePredicates.iterationStrided
        = k / cfg.accessesPerVector / cfg.itersContiguous % cfg.itersStrided) := by
  obtain ⟨hAPV, hIC, hIS, _⟩ := hwf
  induction k with
  | zero =>
    refine ⟨?_, ?_, ?_⟩ <;>
      simp [hv0, hc0, hs0, Nat.zero_mod, Nat.zero_div]
  | succ m ih =>
    obtain ⟨ihv, ihc, ihs⟩ := ih
    rw [Function.iterate_succ_apply']
    set q := (Iterator.incr cfg)^[m] it with hq
    unfold Iterator.incr
    dsimp only
    by_cases h1 : q.thePredicates.iterationVector + 1 < cfg.accessesPerVector
    · have hm1 : m % cfg.accessesPerVector + 1 < cfg.accessesPerVector := by
        rw [← ihv]; exact h1
      obtain ⟨he1, he2⟩ := succ_mod_div_of_lt hm1
      rw [if_pos h1]
      exact ⟨by dsimp only; rw [ihv, he1], by dsimp only; rw [ihc, he2],
        by dsimp only; rw [ihs, he2]⟩
    · have hm1 : m % cfg.accessesPerVector + 1 = cfg.accessesPerVector := by
        have := Nat.mod_lt m hAPV
        rw [← ihv] at this ⊢
        omega
      obtain ⟨he1, he2⟩ := succ_mod_div_of_wrap hm1
      rw [if_neg h1]
      by_cases h2 : q.thePredicates.iterationContiguous + 1 < cfg.itersContiguous
      · have hm2 : m / cfg.accessesPerVector % cfg.itersContiguous + 1 < cfg.itersContiguous := by
          rw [← ihc]; exact h2
        obtain ⟨hf1, hf2⟩ := succ_mod_div_of_lt hm2
        rw [if_pos h2]
        exact ⟨by dsimp only; rw [he1], by dsimp only; rw [ihc, he2, hf1],
          by dsimp only; rw [ihs, he2, hf2]⟩
      · have hm2 : m / cfg.accessesPerVector % cfg.itersContiguous + 1 = cfg.itersContiguous := by
          have := Nat.mod_lt (m / cfg.accessesPerVector) hIC
          rw [← ihc] at this ⊢
          omega
        obtain ⟨hf1, hf2⟩ := succ_mod_div_of_wrap hm2
        rw [if_neg h2]
        by_cases h3 : q.thePredicates.iterationStrided + 1 < cfg.itersStrided
        · have hm3 : m / cfg.accessesPerVector / cfg.itersContiguous % cfg.itersStrided + 1
              < cfg.itersStrided := by
            rw [← ihs]; exact h3
          obtain ⟨hg1, hg2⟩ := succ_mod_div_of_lt hm3
          rw [if_pos h3]
          exact ⟨by dsimp only; rw [he1], by dsimp only; rw [he2, hf1],
            by dsimp only; rw [ihs, he2, hf2, hg1]⟩
        · have hm3 : m / cfg.accessesPerVector / cfg.itersContiguous % cfg.itersStrided + 1
              = cfg.itersStrided := by
            have := Nat.mod_lt (m / cfg.accessesPerVector / cfg.itersContiguous) hIS
            rw [← ihs] at this ⊢
            omega
          obtain ⟨hg1, hg2⟩ := succ_mod_div_of_wrap hm3
          rw [if_neg h3]
          exact ⟨by dsimp only; rw [he1], by dsimp only; rw [he2, hf1],
            by dsimp only; rw [he2, hf2, hg1]⟩

/-- Closed form of the pointer after `k` applications of `operator++` on the
fast path (no gather, no permute) from a zeroed cursor, with params built by
`paramsOf`: the pointer has moved by `iteration_strided_` strided increments;
in particular a full tile sweep returns it to the start of the tile. -/
theorem incr_iterate_pointer (cfg : Config) (hwf : cfg.wf)
    (hfast : cfg.gather = false ∧ cfg.permute = false) (stride : Int)
    (it : Iterator) (hp : it.params = paramsOf cfg stride)
    (hv0 : it.thePredicates.iterationVector = 0)
    (hc0 : it.thePredicates.iterationContiguous = 0)
    (hs0 : it.thePredicates.iterationStrided = 0) (k : Nat) :
    ((Iterator.incr cfg)^[k] it).pointer =
      it.pointer + (k / cfg.accessesPerVector / cfg.itersContiguous % cfg.itersStrided : Nat)
        * (paramsOf cfg stride).incStrided := by
  have hAPV := hwf.1
  have hIC := hwf.2.1
  have hIS := hwf.2.2.1
  induction k with
  | zero => simp
  | succ m ih =>
    obtain ⟨ihv, ihc, ihs⟩ := incr_iterate_cursor cfg hwf it hv0 hc0 hs0 m
    have hqp : ((Iterator.incr cfg)^[m] it).params = paramsOf cfg stride :=
      ((incr_iterate_preserves cfg it m).2.2.2.2.2.2.1).trans hp
    rw [Function.iterate_succ_apply']
    set q := (Iterator.incr cfg)^[m] it with hq
    unfold Iterator.incr
    dsimp only
    by_cases h1 : q.thePredicates.iterationVector + 1 < cfg.accessesPerVector
    · obtain ⟨_, he2⟩ := succ_mod_div_of_lt (ihv ▸ h1)
      rw [if_pos h1]
      dsimp only
      rw [ih, he2]
    · have hm1 : m % cfg.accessesPerVector + 1 = cfg.accessesPerVector := by
        have := Nat.mod_lt m hAPV
        rw [← ihv] at this ⊢
        omega
      obtain ⟨_, he2⟩ := succ_mod_div_of_wrap hm1
      rw [if_neg h1]
      by_cases h2 : q.thePredicates.iterationContiguous + 1 < cfg.itersContiguous
      · obtain ⟨_, hf2⟩ := succ_mod_div_of_lt (ihc ▸ h2)
        rw [if_pos h2]
        dsimp only
        rw [ih, he2, hf2]
      · have hm2 : m / cfg.accessesPerVector % cfg.itersContiguous + 1 = cfg.itersContiguous := by
          have := Nat.mod_lt (m / cfg.accessesPerVector) hIC
          rw [← ihc] at this ⊢
          omega
        obtain ⟨_, hf2⟩ := succ_mod_div_of_wrap hm2
        rw [if_neg h2]
        by_cases h3 : q.thePredicates.iterationStrided + 1 < cfg.itersStrided
        · have hm3 : m / cfg.accessesPerVector / cfg.itersContiguous % cfg.itersStrided + 1
              < cfg.itersStrided := by
            rw [← ihs]; exact h3
          obtain ⟨hg1, _⟩ := succ_mod_div_of_lt hm3
          rw [if_pos h3]
          dsimp only
          rw [if_pos (by simp [hfast.1, hfast.2]), hqp, ih, he2, hf2, hg1]
          push_cast
          ring
        · have hm3 : m / cfg.accessesPerVector / cfg.itersContiguous % cfg.itersStrided + 1
              = cfg.itersStrided := by
            have := Nat.mod_lt (m / cfg.accessesPerVector / cfg.itersContiguous) hIS
            rw [← ihs] at this ⊢
            omega
          obtain ⟨hg1, _⟩ := succ_mod_div_of_wrap hm3
          rw [if_neg h3]
          dsimp only
          rw [if_pos (by simp [hfast.1, hfast.2]), hqp, ih, he2, hf2, hg1]
          have hinc : (paramsOf cfg stride).incNext = (paramsOf cfg stride).incAdvance
              - ((cfg.itersStrided : Int) - 1) * (paramsOf cfg stride).incStrided := rfl
          rw [hinc]
          have hS0 : ((m / cfg.accessesPerVector / cfg.itersContiguous % cfg.itersStrided : Nat) : Int)
              = (cfg.itersStrided : Int) - 1 := by
            omega
          rw [hS0]
          push_cast
          ring

/-- On the gather/permute path `operator++` never moves the pointer: the
address is resolved lazily inside `get()`. -/
theorem incr_pointer_gp (cfg : Config) (it : Iterator)
    (hgp : cfg.gather = true ∨ cfg.permute = true) :
    (it.incr cfg).pointer = it.pointer := by
  unfold Iterator.incr
  dsimp only
  have hcond : ¬(¬(cfg.gather = true) ∧ ¬(cfg.permute = true)) := by
    rcases hgp with h | h <;> simp [h]
  split_ifs <;> simp [hcond]

theorem incr_iterate_pointer_gp (cfg : Config) (it : Iterator)
    (hgp : cfg.gather = true ∨ cfg.permute = true) (k : Nat) :
    ((Iterator.incr cfg)^[k] it).pointer = it.pointer := by
  induction k with
  | zero => rfl
  | succ m ih =>
    rw [Function.iterate_succ_apply', incr_pointer_gp cfg _ hgp, ih]

/-! ### Construction and tile-advance state evolution -/

theorem setPredicates_spec (cfg : Config) (extent : TensorCoord)
    (threadId : Int) (tbOffset : TensorCoord) :
    (setPredicates cfg extent threadId tbOffset).threadOffset
        = tbOffset + cfg.initialOffset threadId ∧
    (setPredicates cfg extent threadId tbOffset).extent = extent ∧
    (setPredicates cfg extent threadId tbOffset).residueOffset
        = (residueInfo cfg extent tbOffset).1 ∧
    (setPredicates cfg extent threadId tbOffset).predicates
        = computePredicatesWords cfg (tbOffset + cfg.initialOffset threadId)
            (residueInfo cfg extent tbOffset).2 false ∧
    (setPredicates cfg extent threadId tbOffset).iterationVector = 0 ∧
    (setPredicates cfg extent threadId tbOffset).iterationContiguous = 0 ∧
    (setPredicates cfg extent threadId tbOffset).iterationStrided = 0 ∧
    (setPredicates cfg extent threadId tbOffset).recomputeCount = 1 := by
  unfold setPredicates Preds.compute_predicates Preds.set_iteration_index
  dsimp only
  refine ⟨rfl, rfl, rfl, rfl, ?_, ?_, ?_, rfl⟩ <;> simp

theorem construct_spec (cfg : Config) (params : Params) (base : Int)
    (extent : TensorCoord) (threadId : Int) (tbOffset : TensorCoord)
    (indices : Int → Int) (permuteFn : TensorCoord → Int) :
    (construct cfg params base extent threadId tbOffset indices permuteFn).thePredicates
        = setPredicates cfg extent threadId tbOffset ∧
    (construct cfg params base extent threadId tbOffset indices permuteFn).isResidueTile
        = true ∧
    (construct cfg params base extent threadId tbOffset indices permuteFn).params
        = params ∧
    (construct cfg params base extent threadId tbOffset indices permuteFn).indices
        = indices ∧
    (construct cfg params base extent threadId tbOffset indices permuteFn).permuteFn
        = permuteFn := by
  unfold construct Iterator.add_pointer_offset
  dsimp only
  split_ifs <;> exact ⟨rfl, rfl, rfl, rfl, rfl⟩

/-- Pointer value right after fast-path construction: the base pointer offset
to the thread's starting element through the layout. -/
theorem construct_pointer_fast (cfg : Config) (params : Params) (base : Int)
    (extent : TensorCoord) (threadId : Int) (tbOffset : TensorCoord)
    (indices : Int → Int) (permuteFn : TensorCoord → Int)
    (hfast : cfg.gather = false ∧ cfg.permute = false) :
    (construct cfg params base extent threadId tbOffset indices permuteFn).pointer
      = base + toBytes cfg (layoutFn params.stride
          (tbOffset + cfg.initialOffset threadId)) := by
  unfold construct Iterator.add_pointer_offset
  dsimp only
  rw [if_pos (by simp [hfast.1, hfast.2])]
  dsimp only
  rw [(setPredicates_spec cfg extent threadId tbOffset).1]

/-- State right after a gather (non-permute) construction: the tracked
coordinate is the thread offset and the pointer holds only the contiguous
component. -/
theorem construct_gather (cfg : Config) (params : Params) (base : Int)
    (extent : TensorCoord) (threadId : Int) (tbOffset : TensorCoord)
    (indices : Int → Int) (permuteFn : TensorCoord → Int)
    (hg : cfg.gather = true) (hp : cfg.permute = false) :
    (construct cfg params base extent threadId tbOffset indices permuteFn).coordOffset
        = tbOffset + cfg.initialOffset threadId ∧
    (construct cfg params base extent threadId tbOffset indices permuteFn).pointer
        = base + toBytes cfg (layoutFn params.stride
            ⟨(tbOffset + cfg.initialOffset threadId).contiguous, 0⟩) := by
  unfold construct Iterator.add_pointer_offset
  dsimp only
  rw [if_neg (by simp [hg]), if_pos (by simp [hp])]
  dsimp only
  rw [(setPredicates_spec cfg extent threadId tbOffset).1]
  exact ⟨rfl, rfl⟩

/-- State right after a permute construction: the tracked coordinate is the
thread offset and the pointer stays at the tensor base. -/
theorem construct_permute (cfg : Config) (params : Params) (base : Int)
    (extent : TensorCoord) (threadId : Int) (tbOffset : TensorCoord)
    (indices : Int → Int) (permuteFn : TensorCoord → Int)
    (hp : cfg.permute = true) :
    (construct cfg params base extent threadId tbOffset indices permuteFn).coordOffset
        = tbOffset + cfg.initialOffset threadId ∧
    (construct cfg params base extent threadId tbOffset indices permuteFn).pointer
        = base := by
  unfold construct Iterator.add_pointer_offset
  dsimp only
  rw [if_neg (by simp [hp]), if_neg (by simp [hp])]
  dsimp only
  rw [(setPredicates_spec cfg extent threadId tbOffset).1]
  exact ⟨rfl, rfl⟩

/-- Effect of `add_tile_offset` on the residue tile (the first call):
predicates are recomputed once in steady-state mode against the original
extent after shifting the thread offset by the residue, and the first-tile
flag is cleared — independent of the addressing path. -/
theorem addTileOffset_residue_predicates (cfg : Config) (it : Iterator)
    (tileOffset : TensorCoord) (hres : it.isResidueTile = true) :
    (it.add_tile_offset cfg tileOffset).thePredicates.threadOffset
        = it.thePredicates.threadOffset + it.thePredicates.residueOffset ∧
    (it.add_tile_offset cfg tileOffset).thePredicates.predicates
        = computePredicatesWords cfg
            (it.thePredicates.threadOffset + it.thePredicates.residueOffset)
            it.thePredicates.extent true ∧
    (it.add_tile_offset cfg tileOffset).thePredicates.recomputeCount
        = it.thePredicates.recomputeCount + 1 ∧
    (it.add_tile_offset cfg tileOffset).thePredicates.extent
        = it.thePredicates.extent ∧
    (it.add_tile_offset cfg tileOffset).thePredicates.residueOffset
        = it.thePredicates.residueOffset ∧
    (it.add_tile_offset cfg tileOffset).thePredicates.iterationVector
        = it.thePredicates.iterationVector ∧
    (it.add_tile_offset cfg tileOffset).thePredicates.iterationContiguous
        = it.thePredicates.iterationContiguous ∧
    (it.add_tile_offset cfg tileOffset).thePredicates.iterationStrided
        = it.thePredicates.iterationStrided ∧
    (it.add_tile_offset cfg tileOffset).isResidueTile = false ∧
    (it.add_tile_offset cfg tileOffset).params = it.params := by
  unfold Iterator.add_tile_offset Preds.compute_predicates Iterator.add_pointer_offset
  dsimp only
  rw [if_pos hres]
  split_ifs <;>
    exact ⟨rfl, rfl, rfl, rfl, rfl, rfl, rfl, rfl, rfl, rfl⟩

/-- Effect of a steady-state `add_tile_offset`: the predicate state is
completely untouched — no recomputation happens — and the flag stays
cleared. -/
theorem addTileOffset_steady_predicates (cfg : Config) (it : Iterator)
    (tileOffset : TensorCoord) (hres : it.isResidueTile = false) :
    (it.add_tile_offset cfg tileOffset).thePredicates = it.thePredicates ∧
    (it.add_tile_offset cfg tileOffset).isResidueTile = false ∧
    (it.add_tile_offset cfg tileOffset).params = it.params := by
  unfold Iterator.add_tile_offset Iterator.add_pointer_offset
  dsimp only
  rw [if_neg (by simp [hres])]
  split_ifs <;> exact ⟨rfl, rfl, rfl⟩

/-- Pointer effect of the residue-tile `add_tile_offset` on the fast path:
the residue correction through the layout, plus `tile_offset - 1` advance
increments, plus the non-advance-axis term. -/
theorem addTileOffset_residue_pointer (cfg : Config) (it : Iterator)
    (tileOffset : TensorCoord) (hres : it.isResidueTile = true)
    (hfast : cfg.gather = false ∧ cfg.permute = false) :
    (it.add_tile_offset cfg tileOffset).pointer
      = it.pointer + toBytes cfg (layoutFn it.params.stride it.thePredicates.residueOffset)
        + (if cfg.advanceRank ≠ 0 then
            it.params.incAdvance * (tileOffset.strided - 1)
              + Int.tdiv ((cfg.shapeContiguous : Int) * tileOffset.contiguous * cfg.elementBits) 8
          else
            it.params.incAdvance * (tileOffset.contiguous - 1)
              + Int.tdiv ((cfg.shapeStrided : Int) * tileOffset.strided * cfg.elementBits) 8) := by
  unfold Iterator.add_tile_offset Preds.compute_predicates Iterator.add_pointer_offset
  dsimp only
  rw [if_pos hres]
  rw [if_pos (by simp [hfast.1, hfast.2])]
  split_ifs with h <;> dsimp only <;> ring

/-- Pointer effect of a steady-state `add_tile_offset` on the fast path:
only the precomputed per-tile increments are applied. -/
theorem addTileOffset_steady_pointer (cfg : Config) (it : Iterator)
    (tileOffset : TensorCoord) (hres : it.isResidueTile = false)
    (hfast : cfg.gather = false ∧ cfg.permute = false) :
    (it.add_tile_offset cfg tileOffset).pointer
      = it.pointer
        + (if cfg.advanceRank ≠ 0 then
            it.params.incAdvance * tileOffset.strided
              + (cfg.shapeContiguous : Int) * tileOffset.contiguous
          else
            it.params.incAdvance * tileOffset.contiguous
              + (cfg.shapeStrided : Int) * tileOffset.strided) := by
  unfold Iterator.add_tile_offset Iterator.add_pointer_offset
  dsimp only
  rw [if_neg (by simp [hres])]
  rw [if_pos (by simp [hfast.1, hfast.2])]
  split_ifs with h <;> dsimp only <;> ring

/-- A full tile sweep (`kAccessesPerVector * Iterations::kContiguous *
Iterations::kStrided` applications of `operator++`) returns a zeroed cursor
to zero. -/
theorem cursor_after_full_sweep (cfg : Config) (hwf : cfg.wf) (it : Iterator)
    (hv0 : it.thePredicates.iterationVector = 0)
    (hc0 : it.thePredicates.iterationContiguous = 0)
    (hs0 : it.thePredicates.iterationStrided = 0) :
    (((Iterator.incr cfg)^[cfg.accessesPerTile] it).thePredicates.iterationVector = 0) ∧
    (((Iterator.incr cfg)^[cfg.accessesPerTile] it).thePredicates.iterationContiguous = 0) ∧
    (((Iterator.incr cfg)^[cfg.accessesPerTile] it).thePredicates.iterationStrided = 0) := by
  obtain ⟨hv, hc, hs⟩ := incr_iterate_cursor cfg hwf it hv0 hc0 hs0 cfg.accessesPerTile
  have hN : cfg.accessesPerTile
      = cfg.accessesPerVector * (cfg.itersContiguous * cfg.itersStrided) := by
    unfold Config.accessesPerTile
    ring
  have h1 : cfg.accessesPerTile % cfg.accessesPerVector = 0 := by
    rw [hN]; exact Nat.mul_mod_right ..
  have h2 : cfg.accessesPerTile / cfg.accessesPerVector = cfg.itersContiguous * cfg.itersStrided := by
    rw [hN]; exact Nat.mul_div_cancel_left _ hwf.1
  refine ⟨?_, ?_, ?_⟩
  · rw [hv, h1]
  · rw [hc, h2, Nat.mul_mod_right]
  · rw [hs, h2, Nat.mul_div_cancel_left _ hwf.2.1, Nat.mod_self]

/-- State of the iterator after `j ≥ 1` full tile advances from
construction: the thread offset has been shifted by the residue once, the
predicates are the steady-state recomputation against the original extent,
the cursor is zeroed, the residue flag is cleared, and — the phase-once
property — the ghost recomputation counter is exactly 2 no matter how large
`j` is. -/
theorem tileAdvance_iterate_state (cfg : Config) (hwf : cfg.wf)
    (params : Params) (base : Int) (extent : TensorCoord) (threadId : Int)
    (tbOffset : TensorCoord) (indices : Int → Int)
    (permuteFn : TensorCoord → Int) (j : Nat) (hj : 1 ≤ j) :
    (((tileAdvance cfg)^[j]
        (construct cfg params base extent threadId tbOffset indices permuteFn)).thePredicates.threadOffset
      = (tbOffset + cfg.initialOffset threadId) + (residueInfo cfg extent tbOffset).1) ∧
    (((tileAdvance cfg)^[j]
        (construct cfg params base extent threadId tbOffset indices permuteFn)).thePredicates.predicates
      = computePredicatesWords cfg
          ((tbOffset + cfg.initialOffset threadId) + (residueInfo cfg extent tbOffset).1)
          extent true) ∧
    (((tileAdvance cfg)^[j]
        (construct cfg params base extent threadId tbOffset indices permuteFn)).thePredicates.recomputeCount
      = 2) ∧
    (((tileAdvance cfg)^[j]
        (construct cfg params base extent threadId tbOffset indices permuteFn)).isResidueTile
      = false) ∧
    (((tileAdvance cfg)^[j]
        (construct cfg params base extent threadId tbOffset indices permuteFn)).thePredicates.iterationVector
      = 0) ∧
    (((tileAdvance cfg)^[j]
        (construct cfg params base extent threadId tbOffset indices permuteFn)).thePredicates.iterationContiguous
      = 0) ∧
    (((tileAdvance cfg)^[j]
        (construct cfg params base extent threadId tbOffset indices permuteFn)).thePredicates.iterationStrided
      = 0) ∧
    (((tileAdvance cfg)^[j]
        (construct cfg params base extent threadId tbOffset indices permuteFn)).params
      = params) := by
  set it0 := construct cfg params base extent threadId tbOffset indices permuteFn with hit0
  obtain ⟨hcp, hcr, hcpar, _, _⟩ :=
    construct_spec cfg params base extent threadId tbOffset indices permuteFn
  obtain ⟨hto, hext, hroff, hpred, hv0, hc0, hs0, hcnt⟩ :=
    setPredicates_spec cfg extent threadId tbOffset
  induction j with
  | zero => omega
  | succ m ih =>
    by_cases hm : 1 ≤ m
    · obtain ⟨i1, i2, i3, i4, i5, i6, i7, i8⟩ := ih hm
      rw [Function.iterate_succ_apply']
      set q := (tileAdvance cfg)^[m] it0 with hq
      unfold tileAdvance
      obtain ⟨w1, w2, w3, w4, w5, w6, w7, w8, w9, w10⟩ :=
        incr_iterate_preserves cfg q cfg.accessesPerTile
      obtain ⟨z1, z2, z3⟩ := cursor_after_full_sweep cfg hwf q i5 i6 i7
      have hqres : ((Iterator.incr cfg)^[cfg.accessesPerTile] q).isResidueTile = false :=
        w6.trans i4
      obtain ⟨s1, s2, s3⟩ :=
        addTileOffset_steady_predicates cfg _ cfg.unitTile hqres
      refine ⟨?_, ?_, ?_, s2, ?_, ?_, ?_, ?_⟩
      · rw [s1, w2, i1]
      · rw [s1, w1, i2]
      · rw [s1, w5, i3]
      · rw [s1, z1]
      · rw [s1, z2]
      · rw [s1, z3]
      · rw [s3, w7, i8]
    · have hm0 : m = 0 := by omega
      subst hm0
      rw [Function.iterate_one]
      unfold tileAdvance
      obtain ⟨w1, w2, w3, w4, w5, w6, w7, w8, w9, w10⟩ :=
        incr_iterate_preserves cfg it0 cfg.accessesPerTile
      have hv0q : it0.thePredicates.iterationVector = 0 := by rw [hcp, hv0]
      have hc0q : it0.thePredicates.iterationContiguous = 0 := by rw [hcp, hc0]
      have hs0q : it0.thePredicates.iterationStrided = 0 := by rw [hcp, hs0]
      obtain ⟨z1, z2, z3⟩ := cursor_after_full_sweep cfg hwf it0 hv0q hc0q hs0q
      have hqres : ((Iterator.incr cfg)^[cfg.accessesPerTile] it0).isResidueTile = true :=
        w6.trans hcr
      obtain ⟨r1, r2, r3, r4, r5, r6, r7, r8, r9, r10⟩ :=
        addTileOffset_residue_predicates cfg _ cfg.unitTile hqres
      have hToff : ((Iterator.incr cfg)^[cfg.accessesPerTile] it0).thePredicates.threadOffset
          = tbOffset + cfg.initialOffset threadId := by rw [w2, hcp, hto]
      have hRoff : ((Iterator.incr cfg)^[cfg.accessesPerTile] it0).thePredicates.residueOffset
          = (residueInfo cfg extent tbOffset).1 := by rw [w4, hcp, hroff]
      have hExt : ((Iterator.incr cfg)^[cfg.accessesPerTile] it0).thePredicates.extent
          = extent := by rw [w3, hcp, hext]
      have hCnt : ((Iterator.incr cfg)^[cfg.accessesPerTile] it0).thePredicates.recomputeCount
          = 1 := by rw [w5, hcp, hcnt]
      refine ⟨?_, ?_, ?_, r9, ?_, ?_, ?_, ?_⟩
      · rw [r1, hToff, hRoff]
      · rw [r2, hToff, hRoff, hExt]
      · rw [r3, hCnt]
      · rw [r6, z1]
      · rw [r7, z2]
      · rw [r8, z3]
      · rw [r10, w7, hcpar]

/-- Pointer value after `j ≥ 1` full tile advances on the fast path: the
residue pointer correction is applied exactly once (at the first
tile-boundary crossing) and every further advance adds exactly the
precomputed full-tile increment `inc_advance_`. -/
theorem tileAdvance_iterate_pointer (cfg : Config) (hwf : cfg.wf)
    (hfast : cfg.gather = false ∧ cfg.permute = false) (stride : Int)
    (base : Int) (extent : TensorCoord) (threadId : Int)
    (tbOffset : TensorCoord) (indices : Int → Int)
    (permuteFn : TensorCoord → Int) (j : Nat) (hj : 1 ≤ j) :
    ((tileAdvance cfg)^[j]
        (construct cfg (paramsOf cfg stride) base extent threadId tbOffset indices permuteFn)).pointer
      = (construct cfg (paramsOf cfg stride) base extent threadId tbOffset indices permuteFn).pointer
        + toBytes cfg (layoutFn stride (residueInfo cfg extent tbOffset).1)
        + ((j - 1 : Nat) : Int) * (paramsOf cfg stride).incAdvance := by
  set params := paramsOf cfg stride with hparams
  set it0 := construct cfg params base extent threadId tbOffset indices permuteFn with hit0
  obtain ⟨hcp, hcr, hcpar, _, _⟩ :=
    construct_spec cfg params base extent threadId tbOffset indices permuteFn
  obtain ⟨hto, hext, hroff, hpred, hv0, hc0, hs0, hcnt⟩ :=
    setPredicates_spec cfg extent threadId tbOffset
  have hNzero : cfg.accessesPerTile / cfg.accessesPerVector / cfg.itersContiguous
      % cfg.itersStrided = 0 := by
    have hN : cfg.accessesPerTile
        = cfg.accessesPerVector * (cfg.itersContiguous * cfg.itersStrided) := by
      unfold Config.accessesPerTile; ring
    rw [hN, Nat.mul_div_cancel_left _ hwf.1, Nat.mul_div_cancel_left _ hwf.2.1,
      Nat.mod_self]
  induction j with
  | zero => omega
  | succ m ih =>
    by_cases hm : 1 ≤ m
    · obtain ⟨i1, i2, i3, i4, i5, i6, i7, i8⟩ :=
        tileAdvance_iterate_state cfg hwf params base extent threadId tbOffset
          indices permuteFn m hm
      rw [Function.iterate_succ_apply']
      set q := (tileAdvance cfg)^[m] it0 with hq
      unfold tileAdvance
      obtain ⟨w1, w2, w3, w4, w5, w6, w7, w8, w9, w10⟩ :=
        incr_iterate_preserves cfg q cfg.accessesPerTile
      have hsweep : ((Iterator.incr cfg)^[cfg.accessesPerTile] q).pointer = q.pointer := by
        rw [incr_iterate_pointer cfg hwf hfast stride q (i8.trans hparams) i5 i6 i7
          cfg.accessesPerTile, hNzero]
        simp
      have hqres : ((Iterator.incr cfg)^[cfg.accessesPerTile] q).isResidueTile = false :=
        w6.trans i4
      rw [addTileOffset_steady_pointer cfg _ cfg.unitTile hqres hfast, hsweep,
        ih hm, w7, i8]
      rcases hwf.2.2.2 with h0 | h1
      · rw [if_neg (by simp [h0])]
        unfold Config.unitTile
        rw [if_pos h0]
        have hc1 : ((m + 1 - 1 : Nat) : Int) = ((m - 1 : Nat) : Int) + 1 := by omega
        rw [hc1]
        dsimp only
        ring
      · rw [if_pos (by simp [h1])]
        unfold Config.unitTile
        rw [if_neg (by simp [h1])]
        have hc1 : ((m + 1 - 1 : Nat) : Int) = ((m - 1 : Nat) : Int) + 1 := by omega
        rw [hc1]
        dsimp only
        ring
    · have hm0 : m = 0 := by omega
      subst hm0
      rw [Function.iterate_one]
      unfold tileAdvance
      obtain ⟨w1, w2, w3, w4, w5, w6, w7, w8, w9, w10⟩ :=
        incr_iterate_preserves cfg it0 cfg.accessesPerTile
      have hv0q : it0.thePredicates.iterationVector = 0 := by rw [hcp, hv0]
      have hc0q : it0.thePredicates.iterationContiguous = 0 := by rw [hcp, hc0]
      have hs0q : it0.thePredicates.iterationStrided = 0 := by rw [hcp, hs0]
      have hsweep : ((Iterator.incr cfg)^[cfg.accessesPerTile] it0).pointer = it0.pointer := by
        rw [incr_iterate_pointer cfg hwf hfast stride it0 (hcpar.trans hparams)
          hv0q hc0q hs0q cfg.accessesPerTile, hNzero]
        simp
      have hqres : ((Iterator.incr cfg)^[cfg.accessesPerTile] it0).isResidueTile = true :=
        w6.trans hcr
      rw [addTileOffset_residue_pointer cfg _ cfg.unitTile hqres hfast, hsweep,
        w7, hcpar]
      have hRoff : ((Iterator.incr cfg)^[cfg.accessesPerTile] it0).thePredicates.residueOffset
          = (residueInfo cfg extent tbOffset).1 := by rw [w4, hcp, hroff]
      rw [hRoff]
      have hστ : params.stride = stride := rfl
      rcases hwf.2.2.2 with h0 | h1
      · rw [if_neg (by simp [h0])]
        unfold Config.unitTile
        rw [if_pos h0]
        dsimp only
        rw [hστ]
        simp [Int.zero_tdiv]
      · rw [if_pos (by simp [h1])]
        unfold Config.unitTile
        rw [if_neg (by simp [h1])]
        dsimp only
        rw [hστ]
        simp [Int.zero_tdiv]

/-! ### Exact byte arithmetic for byte-aligned element types -/

theorem tdiv_eight (y : Int) : Int.tdiv (8 * y) 8 = y :=
  Int.mul_tdiv_cancel_left _ (by norm_num)

theorem toBytes_exact (cfg : Config) {m : Nat} (hm : cfg.elementBits = 8 * m)
    (x : Int) : toBytes cfg x = (m : Int) * x := by
  unfold toBytes
  rw [hm]
  push_cast
  rw [show (8 : Int) * (m : Int) * x = 8 * ((m : Int) * x) from by ring, tdiv_eight]

theorem accessBytes_exact (cfg : Config) {m : Nat}
    (hm : cfg.elementBits = 8 * m) :
    accessBytes cfg = cfg.accessElements * m := by
  unfold accessBytes
  rw [hm, show cfg.accessElements * (8 * m) = cfg.accessElements * m * 8 from by ring,
    Nat.mul_div_cancel _ (by norm_num)]

theorem int_emod_le (a b : Int) (ha : 0 ≤ a) (hb : 0 < b) : a % b ≤ a := by
  have h1 : a % b = a - b * (a / b) := Int.emod_def a b
  have h2 : 0 ≤ a / b := Int.ediv_nonneg ha (le_of_lt hb)
  have h3 : 0 ≤ b * (a / b) := mul_nonneg (le_of_lt hb) h2
  omega

/-! ### Claim C5: steady-state predicate asymmetry -/

/-- C5: whenever predicates are recomputed with the steady-state flag set,
the predicate bit of the current in-range cursor is determined by a bounds
check on only the axis not being advanced along — for advance rank 0 only
the strided coordinate is checked against the strided extent, for advance
rank 1 only the contiguous coordinate is checked against the contiguous
extent; the advance-rank axis is not rechecked. -/
theorem C5_steady_state_asymmetry (cfg : Config) (p : Preds)
    (ext : TensorCoord) (hv : p.iterationVector < cfg.accessesPerVector)
    (hc : p.iterationContiguous < cfg.itersContiguous)
    (hs : p.iterationStrided < cfg.itersStrided) :
    (p.compute_predicates cfg ext true).valid cfg =
      (if cfg.advanceRank = 0 then
        decide ((p.threadOffset + accessCoord cfg p.iterationVector
            p.iterationContiguous p.iterationStrided).strided < ext.strided)
      else
        decide ((p.threadOffset + accessCoord cfg p.iterationVector
            p.iterationContiguous p.iterationStrided).contiguous < ext.contiguous)) := by
  rw [valid_computePredicates cfg (p.compute_predicates cfg ext true)
    p.threadOffset ext true rfl hv hc hs]
  rfl

/-- Witness for C5 at a concrete strided-advance configuration. -/
theorem C5_witness :
    ((setPredicates cfgA ⟨4, 5⟩ 0 ⟨0, 0⟩).compute_predicates cfgA ⟨4, 5⟩ true).valid cfgA =
      (if cfgA.advanceRank = 0 then
        decide (((setPredicates cfgA ⟨4, 5⟩ 0 ⟨0, 0⟩).threadOffset
            + accessCoord cfgA (setPredicates cfgA ⟨4, 5⟩ 0 ⟨0, 0⟩).iterationVector
              (setPredicates cfgA ⟨4, 5⟩ 0 ⟨0, 0⟩).iterationContiguous
              (setPredicates cfgA ⟨4, 5⟩ 0 ⟨0, 0⟩).iterationStrided).strided < (5 : Int))
      else
        decide (((setPredicates cfgA ⟨4, 5⟩ 0 ⟨0, 0⟩).threadOffset
            + accessCoord cfgA (setPredicates cfgA ⟨4, 5⟩ 0 ⟨0, 0⟩).iterationVector
              (setPredicates cfgA ⟨4, 5⟩ 0 ⟨0, 0⟩).iterationContiguous
              (setPredicates cfgA ⟨4, 5⟩ 0 ⟨0, 0⟩).iterationStrided).contiguous < (4 : Int))) :=
  C5_steady_state_asymmetry cfgA (setPredicates cfgA ⟨4, 5⟩ 0 ⟨0, 0⟩) ⟨4, 5⟩
    (by decide) (by decide) (by decide)

/-! ### Claim C6: bit-packing contract -/

/-- C6: the predicate bit of the access triple `(v, c, s)` is stored at
linear index `v + kAccessesPerVector * (c + Iterations::kContiguous * s)`,
at bit position `byte_idx * 8 + bit_idx` of word `pred_idx / 16` (four used
bits per byte, four bytes per 32-bit word); `valid()` reads exactly that bit
for the current cursor, and validity is a pure function of the cursor triple
and the currently-held predicate words. -/
theorem C6_bit_packing (cfg : Config) (p : Preds) (toff ext : TensorCoord)
    (steady : Bool) (v c s : Nat) (hv : v < cfg.accessesPerVector)
    (hc : c < cfg.itersContiguous) (hs : s < cfg.itersStrided) :
    (p.valid cfg = readBit p.predicates
        (linIdx cfg p.iterationVector p.iterationContiguous p.iterationStrided)) ∧
    (readBit (computePredicatesWords cfg toff ext steady) (linIdx cfg v c s)
        = guardAtCursor cfg toff ext steady v c s) ∧
    (∀ q : Preds, q.predicates = p.predicates →
      q.iterationVector = p.iterationVector →
      q.iterationContiguous = p.iterationContiguous →
      q.iterationStrided = p.iterationStrided → q.valid cfg = p.valid cfg) := by
  refine ⟨valid_eq_readBit cfg p, ?_, ?_⟩
  · rw [readBit_computePredicatesWords cfg toff ext steady _ (linIdx_lt cfg hv hc hs),
      guardFor_linIdx cfg toff ext steady hv hc hs]
  · intro q h1 h2 h3 h4
    unfold Preds.valid
    rw [h1, h2, h3, h4]

/-- Witness for C6 on a concrete state and cursor. -/
theorem C6_witness :
    ((setPredicates cfgB ⟨7, 3⟩ 0 ⟨0, 0⟩).valid cfgB = readBit
        (setPredicates cfgB ⟨7, 3⟩ 0 ⟨0, 0⟩).predicates
        (linIdx cfgB (setPredicates cfgB ⟨7, 3⟩ 0 ⟨0, 0⟩).iterationVector
          (setPredicates cfgB ⟨7, 3⟩ 0 ⟨0, 0⟩).iterationContiguous
          (setPredicates cfgB ⟨7, 3⟩ 0 ⟨0, 0⟩).iterationStrided)) ∧
    (readBit (computePredicatesWords cfgB ⟨0, 0⟩ ⟨7, 3⟩ false) (linIdx cfgB 1 1 1)
        = guardAtCursor cfgB ⟨0, 0⟩ ⟨7, 3⟩ false 1 1 1) ∧
    (∀ q : Preds, q.predicates = (setPredicates cfgB ⟨7, 3⟩ 0 ⟨0, 0⟩).predicates →
      q.iterationVector = (setPredicates cfgB ⟨7, 3⟩ 0 ⟨0, 0⟩).iterationVector →
      q.iterationContiguous = (setPredicates cfgB ⟨7, 3⟩ 0 ⟨0, 0⟩).iterationContiguous →
      q.iterationStrided = (setPredicates cfgB ⟨7, 3⟩ 0 ⟨0, 0⟩).iterationStrided →
      q.valid cfgB = (setPredicates cfgB ⟨7, 3⟩ 0 ⟨0, 0⟩).valid cfgB) :=
  C6_bit_packing cfgB (setPredicates cfgB ⟨7, 3⟩ 0 ⟨0, 0⟩) ⟨0, 0⟩ ⟨7, 3⟩ false 1 1 1
    (by decide) (by decide) (by decide)

/-! ### Claim C10: cursor range invariant -/

/-- C10: after construction the cursor is `(0, 0, 0)`; after any number of
`operator++` steps each cursor component is strictly below its iteration
bound; advancing from the last access of a tile wraps the cursor back to
`(0, 0, 0)`; and the predicate word index computed by `valid()` never
exceeds the predicate word array. -/
theorem C10_cursor_invariant (cfg : Config) (hwf : cfg.wf) (params : Params)
    (base : Int) (extent : TensorCoord) (threadId : Int) (tb : TensorCoord)
    (indices : Int → Int) (permuteFn : TensorCoord → Int) (k : Nat) :
    ((construct cfg params base extent threadId tb indices permuteFn).thePredicates.iterationVector = 0 ∧
     (construct cfg params base extent threadId tb indices permuteFn).thePredicates.iterationContiguous = 0 ∧
     (construct cfg params base extent threadId tb indices permuteFn).thePredicates.iterationStrided = 0) ∧
    (((Iterator.incr cfg)^[k]
        (construct cfg params base extent threadId tb indices permuteFn)).thePredicates.iterationVector
        < cfg.accessesPerVector ∧
     ((Iterator.incr cfg)^[k]
        (construct cfg params base extent threadId tb indices permuteFn)).thePredicates.iterationContiguous
        < cfg.itersContiguous ∧
     ((Iterator.incr cfg)^[k]
        (construct cfg params base extent threadId tb indices permuteFn)).thePredicates.iterationStrided
        < cfg.itersStrided) ∧
    (∀ it : Iterator,
      it.thePredicates.iterationVector + 1 = cfg.accessesPerVector →
      it.thePredicates.iterationContiguous + 1 = cfg.itersContiguous →
      it.thePredicates.iterationStrided + 1 = cfg.itersStrided →
      (it.incr cfg).thePredicates.iterationVector = 0 ∧
      (it.incr cfg).thePredicates.iterationContiguous = 0 ∧
      (it.incr cfg).thePredicates.iterationStrided = 0) ∧
    wordIdx (linIdx cfg
        (((Iterator.incr cfg)^[k]
          (construct cfg params base extent threadId tb indices permuteFn)).thePredicates.iterationVector)
        (((Iterator.incr cfg)^[k]
          (construct cfg params base extent threadId tb indices permuteFn)).thePredicates.iterationContiguous)
        (((Iterator.incr cfg)^[k]
          (construct cfg params base extent threadId tb indices permuteFn)).thePredicates.iterationStrided))
      < cfg.predicateWordCount := by
  set it0 := construct cfg params base extent threadId tb indices permuteFn with hit0
  obtain ⟨hcp, _, _, _, _⟩ :=
    construct_spec cfg params base extent threadId tb indices permuteFn
  obtain ⟨_, _, _, _, hv0, hc0, hs0, _⟩ := setPredicates_spec cfg extent threadId tb
  have hz : it0.thePredicates.iterationVector = 0 ∧
      it0.thePredicates.iterationContiguous = 0 ∧
      it0.thePredicates.iterationStrided = 0 :=
    ⟨hcp ▸ hv0, hcp ▸ hc0, hcp ▸ hs0⟩
  obtain ⟨hv, hc, hs⟩ := incr_iterate_cursor cfg hwf it0 hz.1 hz.2.1 hz.2.2 k
  have hrange : ((Iterator.incr cfg)^[k] it0).thePredicates.iterationVector < cfg.accessesPerVector ∧
      ((Iterator.incr cfg)^[k] it0).thePredicates.iterationContiguous < cfg.itersContiguous ∧
      ((Iterator.incr cfg)^[k] it0).thePredicates.iterationStrided < cfg.itersStrided := by
    rw [hv, hc, hs]
    exact ⟨Nat.mod_lt _ hwf.1, Nat.mod_lt _ hwf.2.1, Nat.mod_lt _ hwf.2.2.1⟩
  refine ⟨hz, hrange, ?_, ?_⟩
  · intro it h1 h2 h3
    unfold Iterator.incr
    dsimp only
    rw [if_neg (by omega), if_neg (by omega), if_neg (by omega)]
    exact ⟨rfl, rfl, rfl⟩
  · have hlt := linIdx_lt cfg hrange.1 hrange.2.1 hrange.2.2
    have hle := predicateCount_le cfg
    unfold wordIdx
    omega

/-- Witness for C10 at a concrete configuration and step count. -/
theorem C10_witness :
    ((Iterator.incr cfgB)^[5]
        (construct cfgB (paramsOf cfgB 8) 0 ⟨7, 3⟩ 0 ⟨0, 0⟩ (fun _ => 0)
          (fun _ => 0))).thePredicates.iterationVector < cfgB.accessesPerVector ∧
    ((Iterator.incr cfgB)^[5]
        (construct cfgB (paramsOf cfgB 8) 0 ⟨7, 3⟩ 0 ⟨0, 0⟩ (fun _ => 0)
          (fun _ => 0))).thePredicates.iterationContiguous < cfgB.itersContiguous ∧
    ((Iterator.incr cfgB)^[5]
        (construct cfgB (paramsOf cfgB 8) 0 ⟨7, 3⟩ 0 ⟨0, 0⟩ (fun _ => 0)
          (fun _ => 0))).thePredicates.iterationStrided < cfgB.itersStrided :=
  (C10_cursor_invariant cfgB (by decide) (paramsOf cfgB 8) 0 ⟨7, 3⟩ 0 ⟨0, 0⟩
    (fun _ => 0) (fun _ => 0) 5).2.1

/-! ### Claim C9: null pointer exactly on invalid gather/permute access -/

/-- C9: with Gather or Permute enabled, `get()` returns null exactly when
`valid()` is false at the current cursor; on the plain fast path `get()`
always returns a computed (non-null) address regardless of validity. -/
theorem C9_get_null_iff_invalid (cfg : Config) (it : Iterator) :
    ((cfg.gather = true ∨ cfg.permute = true) →
      ((it.get cfg = none) ↔ it.valid cfg = false)) ∧
    ((cfg.gather = false ∧ cfg.permute = false) → (it.get cfg).isSome = true) := by
  constructor
  · intro hgp
    unfold Iterator.get Iterator.valid
    rw [if_pos (by rcases hgp with h | h
                   · exact Or.inl h
                   · exact Or.inr h)]
    by_cases hval : it.thePredicates.valid cfg
    · rw [if_neg (by simp [hval])]
      simp [hval]
    · rw [if_pos (by simp_all)]
      simp_all
  · intro hfast
    unfold Iterator.get
    rw [if_neg (by simp [hfast.1, hfast.2])]
    rfl

/-- Witness for C9: the gather path of a concrete iterator returns null
exactly when invalid, and the fast path always returns an address. -/
theorem C9_witness :
    ((cfgG.gather = true ∨ cfgG.permute = true) →
      (((construct cfgG (paramsOf cfgG 4) 0 ⟨4, 5⟩ 0 ⟨0, 0⟩ (fun i => i)
          (fun _ => 0)).get cfgG = none) ↔
        (construct cfgG (paramsOf cfgG 4) 0 ⟨4, 5⟩ 0 ⟨0, 0⟩ (fun i => i)
          (fun _ => 0)).valid cfgG = false)) ∧
    ((cfgG.gather = false ∧ cfgG.permute = false) →
      ((construct cfgG (paramsOf cfgG 4) 0 ⟨4, 5⟩ 0 ⟨0, 0⟩ (fun i => i)
          (fun _ => 0)).get cfgG).isSome = true) :=
  C9_get_null_iff_invalid cfgG
    (construct cfgG (paramsOf cfgG 4) 0 ⟨4, 5⟩ 0 ⟨0, 0⟩ (fun i => i) (fun _ => 0))

/-! ### Claim C7: mask override -/

theorem valid_zero_words (cfg : Config) (p : Preds)
    (h : ∀ i, p.predicates.getD i 0 = 0) : p.valid cfg = false := by
  unfold Preds.valid
  dsimp only
  rw [h]
  simp [Nat.zero_and]

theorem clear_mask_true_words (p : Preds) (i : Nat) :
    (p.clear_mask true).predicates.getD i 0 = 0 := by
  unfold Preds.clear_mask
  dsimp only
  rw [List.getD_eq_getElem?_getD, List.getElem?_map]
  cases p.predicates[i]? <;> rfl

theorem map_range_getD (W : Nat) (f : Nat → Nat) (i : Nat) (hi : i < W) :
    ((List.range W).map f).getD i 0 = f i := by
  rw [List.getD_eq_getElem?_getD, List.getElem?_map, List.getElem?_range hi]
  rfl

theorem map_range_getD_self (m : List Nat) (W : Nat) (hW : m.length = W) :
    (List.range W).map (fun i => m.getD i 0) = m := by
  apply List.ext_getElem?
  intro i
  rw [List.getElem?_map]
  by_cases hi : i < W
  · have him : i < m.length := by omega
    rw [List.getElem?_range hi, List.getElem?_eq_getElem him]
    simp [List.getD_eq_getElem?_getD, List.getElem?_eq_getElem him]
  · have h1 : (List.range W)[i]? = none := by
      rw [List.getElem?_eq_none]
      rw [List.length_range]
      omega
    have h2 : m[i]? = none := by
      rw [List.getElem?_eq_none]
      omega
    rw [h1, h2]
    rfl

/-- C7 counterexample: the claim "after `clear_mask(true)`, `valid()` stays
false under any sequence of advances until `enable_mask()` or `set_mask()`"
is false — a residue-phase `add_tile_offset` (an advance operation)
recomputes the predicates from the extent and re-enables the bit. -/
theorem C7_counterexample :
    (((construct cfgB (paramsOf cfgB 8) 0 ⟨7, 3⟩ 0 ⟨0, 0⟩ (fun _ => 0)
        (fun _ => 0)).clear_mask true).valid cfgB = false) ∧
    ((((construct cfgB (paramsOf cfgB 8) 0 ⟨7, 3⟩ 0 ⟨0, 0⟩ (fun _ => 0)
        (fun _ => 0)).clear_mask true).add_tile_offset cfgB ⟨0, 1⟩).valid cfgB = true) := by
  constructor
  · decide
  · decide

/-- C7 amended: after `clear_mask(true)`, `valid()` is false for every
cursor and remains false under any number of `operator++` advances and under
steady-state `add_tile_offset` calls (a residue-phase `add_tile_offset`,
which recomputes predicates, is excluded); `clear_mask(false)` leaves the
state unchanged; and `get_mask` directly after `set_mask(m)` returns `m`
exactly. -/
theorem C7_amended (cfg : Config) (it : Iterator) (m : List Nat)
    (hm : m.length = cfg.predicateWordCount) (k : Nat) (t : TensorCoord) :
    ((it.clear_mask true).valid cfg = false) ∧
    (((Iterator.incr cfg)^[k] (it.clear_mask true)).valid cfg = false) ∧
    (it.isResidueTile = false →
      ((it.clear_mask true).add_tile_offset cfg t).valid cfg = false) ∧
    (∀ p : Preds, p.clear_mask false = p) ∧
    (∀ p : Preds, (p.set_mask cfg m).get_mask cfg = m) := by
  refine ⟨?_, ?_, ?_, ?_, ?_⟩
  · exact valid_zero_words cfg _ (clear_mask_true_words it.thePredicates)
  · apply valid_zero_words
    intro i
    have hpres := (incr_iterate_preserves cfg (it.clear_mask true) k).1
    rw [hpres]
    exact clear_mask_true_words it.thePredicates i
  · intro hres
    have hres2 : (it.clear_mask true).isResidueTile = false := hres
    obtain ⟨h1, _, _⟩ :=
      addTileOffset_steady_predicates cfg (it.clear_mask true) t hres2
    unfold Iterator.valid
    rw [h1]
    exact valid_zero_words cfg _ (clear_mask_true_words it.thePredicates)
  · intro p
    unfold Preds.clear_mask
    simp
  · intro p
    unfold Preds.set_mask Preds.get_mask
    dsimp only
    rw [List.map_congr_left (fun i hi => by
      rw [map_range_getD cfg.predicateWordCount _ i (List.mem_range.mp hi)])]
    exact map_range_getD_self m cfg.predicateWordCount hm

/-- Witness for C7 at a concrete configuration, mask and tile offset. -/
theorem C7_witness :
    ((construct cfgB (paramsOf cfgB 8) 0 ⟨7, 3⟩ 0 ⟨0, 0⟩ (fun _ => 0)
        (fun _ => 0)).clear_mask true).valid cfgB = false :=
  (C7_amended cfgB
    (construct cfgB (paramsOf cfgB 8) 0 ⟨7, 3⟩ 0 ⟨0, 0⟩ (fun _ => 0) (fun _ => 0))
    [7] (by decide) 3 ⟨0, 1⟩).1

/-! ### Claim C4: residue correctness -/

theorem filter_range_lt_card (n r : Nat) (h : r ≤ n) :
    ((Finset.range n).filter (fun c => c < r)).card = r := by
  have heq : (Finset.range n).filter (fun c => c < r) = Finset.range r := by
    ext x
    simp only [Finset.mem_filter, Finset.mem_range]
    omega
  rw [heq, Finset.card_range]

/-- C4: with a zero threadblock offset and a contiguous-advance thread map
that enumerates every contiguous position of the tile once (vector width 1,
unit delta), the residue size is the extent modulo the tile size with a
zero remainder defaulting to a full tile step; when the extent divides
evenly every first-tile predicate bit is set (the residue tile behaves as a
full tile), and otherwise each strided row of the first tile's mask has
exactly `extent mod tile_size` valid positions along the advance axis. -/
theorem C4_residue_correctness (cfg : Config) (hwf : cfg.wf)
    (params : Params) (base : Int) (extent : TensorCoord) (threadId : Int)
    (indices : Int → Int) (permuteFn : TensorCoord → Int)
    (hrank : cfg.advanceRank = 0) (hshape : 0 < cfg.shapeContiguous)
    (hAPV1 : cfg.accessesPerVector = 1) (hAe1 : cfg.accessElements = 1)
    (hDc1 : cfg.deltaContiguous = 1)
    (hICS : cfg.itersContiguous = cfg.shapeContiguous)
    (him0 : (cfg.initialOffset threadId).contiguous = 0)
    (hstr : ∀ s : Nat, s < cfg.itersStrided →
      (cfg.initialOffset threadId).strided + ((s * cfg.deltaStrided : Nat) : Int)
        < extent.strided)
    (hEc : 0 < extent.contiguous) :
    ((construct cfg params base extent threadId ⟨0, 0⟩ indices permuteFn).thePredicates.residueOffset
        = ⟨if Int.tmod extent.contiguous cfg.shapeContiguous = 0
            then (cfg.shapeContiguous : Int)
            else Int.tmod extent.contiguous cfg.shapeContiguous, 0⟩) ∧
    (Int.tmod extent.contiguous cfg.shapeContiguous = 0 →
      ∀ v c s : Nat, v < cfg.accessesPerVector → c < cfg.itersContiguous →
        s < cfg.itersStrided →
        readBit (construct cfg params base extent threadId ⟨0, 0⟩ indices
            permuteFn).thePredicates.predicates (linIdx cfg v c s) = true) ∧
    (Int.tmod extent.contiguous cfg.shapeContiguous ≠ 0 →
      ∀ s : Nat, s < cfg.itersStrided →
        ((Finset.range cfg.itersContiguous).filter
            (fun c => readBit (construct cfg params base extent threadId ⟨0, 0⟩
              indices permuteFn).thePredicates.predicates (linIdx cfg 0 c s) = true)).card
          = (Int.tmod extent.contiguous cfg.shapeContiguous).toNat) := by
  obtain ⟨hcp, _, _, _, _⟩ :=
    construct_spec cfg params base extent threadId ⟨0, 0⟩ indices permuteFn
  obtain ⟨hto, hext, hroff, hpred, _, _, _, _⟩ :=
    setPredicates_spec cfg extent threadId ⟨0, 0⟩
  have hsub : extent.contiguous - (⟨0, 0⟩ : TensorCoord).contiguous
      = extent.contiguous := by
    show extent.contiguous - 0 = extent.contiguous
    ring
  have hri : residueInfo cfg extent ⟨0, 0⟩ =
      (⟨if Int.tmod extent.contiguous cfg.shapeContiguous = 0
          then (cfg.shapeContiguous : Int)
          else Int.tmod extent.contiguous cfg.shapeContiguous, 0⟩,
       ⟨min extent.contiguous
          ((0 : Int) + (if Int.tmod extent.contiguous cfg.shapeContiguous = 0
            then (cfg.shapeContiguous : Int)
            else Int.tmod extent.contiguous cfg.shapeContiguous)),
        extent.strided⟩) := by
    unfold residueInfo
    rw [if_neg (by omega)]
    dsimp only
    rw [hsub]
  have hEc0 : (0 : Int) ≤ extent.contiguous := le_of_lt hEc
  -- the guard of an in-range cursor in the first tile
  have hguard : ∀ v c s : Nat, v < cfg.accessesPerVector →
      c < cfg.itersContiguous → s < cfg.itersStrided →
      readBit (construct cfg params base extent threadId ⟨0, 0⟩ indices
          permuteFn).thePredicates.predicates (linIdx cfg v c s)
        = guardAtCursor cfg ((⟨0, 0⟩ : TensorCoord) + cfg.initialOffset threadId)
            (residueInfo cfg extent ⟨0, 0⟩).2 false v c s := by
    intro v c s hv hc hs
    rw [hcp, hpred,
      readBit_computePredicatesWords cfg _ _ false _ (linIdx_lt cfg hv hc hs),
      guardFor_linIdx cfg _ _ false hv hc hs]
  refine ⟨?_, ?_, ?_⟩
  · rw [hcp, hroff, hri]
  · intro hdvd v c s hv hc hs
    have hle : (cfg.shapeContiguous : Int) ≤ extent.contiguous := by
      by_contra hlt
      have h1 : extent.contiguous < (cfg.shapeContiguous : Int) := by omega
      have h2 : Int.tmod extent.contiguous cfg.shapeContiguous
          = extent.contiguous := by
        rw [Int.tmod_eq_emod hEc0 (by positivity), Int.emod_eq_of_lt hEc0 h1]
      omega
    have hvs : v = 0 := by omega
    subst hvs
    rw [hguard 0 c s (by omega) hc hs, hri]
    unfold guardAtCursor accessCoord
    dsimp only
    rw [if_neg (by simp), if_pos hdvd]
    have hmin : min extent.contiguous ((0 : Int) + (cfg.shapeContiguous : Int))
        = (0 : Int) + (cfg.shapeContiguous : Int) := min_eq_right (by omega)
    rw [hmin]
    simp only [TensorCoord.add_strided, TensorCoord.add_contiguous,
      decide_eq_true_eq]
    have hcc : c * cfg.deltaContiguous + 0 * cfg.accessElements = c := by
      rw [hDc1]; ring
    rw [hcc]
    have hs2 := hstr s hs
    have hc2 : c < cfg.shapeContiguous := by omega
    constructor
    · show (0 : Int) + (cfg.initialOffset threadId).strided
          + ((s * cfg.deltaStrided : Nat) : Int) < extent.strided
      omega
    · show (0 : Int) + (cfg.initialOffset threadId).contiguous + (c : Int)
          < (0 : Int) + (cfg.shapeContiguous : Int)
      rw [him0]
      push_cast
      omega
  · intro hnd s hs
    set r0 := Int.tmod extent.contiguous cfg.shapeContiguous with hr0
    have hr0nn : 0 ≤ r0 := Int.tmod_nonneg _ hEc0
    have hr0lt : r0 < (cfg.shapeContiguous : Int) :=
      Int.tmod_lt_of_pos _ (by positivity)
    have hr0le : r0 ≤ extent.contiguous := by
      rw [hr0, Int.tmod_eq_emod hEc0 (by positivity)]
      exact int_emod_le _ _ hEc0 (by positivity)
    have hptw : ∀ c ∈ Finset.range cfg.itersContiguous,
        (readBit (construct cfg params base extent threadId ⟨0, 0⟩ indices
            permuteFn).thePredicates.predicates (linIdx cfg 0 c s) = true)
          ↔ c < r0.toNat := by
      intro c hcm
      have hc := Finset.mem_range.mp hcm
      rw [hguard 0 c s (by omega) hc hs, hri]
      unfold guardAtCursor accessCoord
      dsimp only
      rw [if_neg (by simp)]
      rw [if_neg hnd]
      have hcoordS := hstr s hs
      have hmin : min extent.contiguous ((0 : Int) + r0) = (0 : Int) + r0 := by
        omega
      rw [hmin]
      simp only [TensorCoord.add_strided, TensorCoord.add_contiguous]
      simp only [decide_eq_true_eq]
      constructor
      · intro hand
        have h2 := hand.2
        rw [him0, hDc1] at h2
        push_cast at h2
        omega
      · intro hlt
        constructor
        · show (0 : Int) + (cfg.initialOffset threadId).strided + _ < _
          push_cast
          omega
        · rw [him0, hDc1]
          push_cast
          omega
    rw [Finset.filter_congr hptw,
      filter_range_lt_card cfg.itersContiguous r0.toNat (by omega)]

/-- Witness for C4: extent 6 with tile size 4 leaves residue 2 along the
contiguous advance axis. -/
theorem C4_witness :
    ((Finset.range cfgC.itersContiguous).filter
        (fun c => readBit (construct cfgC (paramsOf cfgC 6) 0 ⟨6, 3⟩ 0 ⟨0, 0⟩
          (fun _ => 0) (fun _ => 0)).thePredicates.predicates
            (linIdx cfgC 0 c 1) = true)).card
      = (Int.tmod (6 : Int) cfgC.shapeContiguous).toNat :=
  (C4_residue_correctness cfgC (by decide) (paramsOf cfgC 6) 0 ⟨6, 3⟩ 0
      (fun _ => 0) (fun _ => 0) rfl (by decide) (by decide) (by decide)
      (by decide) (by decide) (by decide)
      (by intro s hs
          have hs2 : s < 2 := hs
          interval_cases s <;> decide)
      (by decide)).2.2
    (by decide) 1 (by decide)

/-! ### Claim C3: first-transition behaviour and phase-once recomputation -/

/-- C3: at construction one predicate recomputation has happened and the
iterator is in its first-tile phase; the first full tile advance recomputes
predicates in steady-state mode against the original extent, applies the
residue pointer correction exactly once, and clears the first-tile flag;
every subsequent tile advance adds exactly the precomputed full-tile
increment `inc_advance_` and leaves the predicates untouched; hence after
any `n ≥ 1` tile advances the recomputation count is exactly 2. -/
theorem C3_phase_once (cfg : Config) (hwf : cfg.wf)
    (hfast : cfg.gather = false ∧ cfg.permute = false) (stride base : Int)
    (extent : TensorCoord) (threadId : Int) (tb : TensorCoord)
    (indices : Int → Int) (permuteFn : TensorCoord → Int) (n : Nat)
    (hn : 1 ≤ n) :
    ((construct cfg (paramsOf cfg stride) base extent threadId tb indices
        permuteFn).thePredicates.recomputeCount = 1 ∧
     (construct cfg (paramsOf cfg stride) base extent threadId tb indices
        permuteFn).isResidueTile = true) ∧
    ((tileAdvance cfg (construct cfg (paramsOf cfg stride) base extent threadId
          tb indices permuteFn)).thePredicates.predicates
        = computePredicatesWords cfg
            ((tb + cfg.initialOffset threadId) + (residueInfo cfg extent tb).1)
            extent true ∧
     (tileAdvance cfg (construct cfg (paramsOf cfg stride) base extent threadId
          tb indices permuteFn)).thePredicates.recomputeCount = 2 ∧
     (tileAdvance cfg (construct cfg (paramsOf cfg stride) base extent threadId
          tb indices permuteFn)).isResidueTile = false ∧
     (tileAdvance cfg (construct cfg (paramsOf cfg stride) base extent threadId
          tb indices permuteFn)).pointer
        = (construct cfg (paramsOf cfg stride) base extent threadId tb indices
            permuteFn).pointer
          + toBytes cfg (layoutFn stride (residueInfo cfg extent tb).1)) ∧
    (∀ j : Nat, 1 ≤ j →
      (tileAdvance cfg ((tileAdvance cfg)^[j]
          (construct cfg (paramsOf cfg stride) base extent threadId tb indices
            permuteFn))).pointer
          = ((tileAdvance cfg)^[j]
              (construct cfg (paramsOf cfg stride) base extent threadId tb
                indices permuteFn)).pointer + (paramsOf cfg stride).incAdvance ∧
      (tileAdvance cfg ((tileAdvance cfg)^[j]
          (construct cfg (paramsOf cfg stride) base extent threadId tb indices
            permuteFn))).thePredicates.predicates
          = ((tileAdvance cfg)^[j]
              (construct cfg (paramsOf cfg stride) base extent threadId tb
                indices permuteFn)).thePredicates.predicates) ∧
    ((tileAdvance cfg)^[n]
        (construct cfg (paramsOf cfg stride) base extent threadId tb indices
          permuteFn)).thePredicates.recomputeCount = 2 := by
  set params := paramsOf cfg stride with hparams
  set it0 := construct cfg params base extent threadId tb indices permuteFn with hit0
  obtain ⟨hcp, hcr, hcpar, _, _⟩ :=
    construct_spec cfg params base extent threadId tb indices permuteFn
  obtain ⟨hto, hext, hroff, hpred, hv0, hc0, hs0, hcnt⟩ :=
    setPredicates_spec cfg extent threadId tb
  have hstate1 := tileAdvance_iterate_state cfg hwf params base extent threadId
    tb indices permuteFn 1 (by omega)
  rw [Function.iterate_one] at hstate1
  have hpointer1 := tileAdvance_iterate_pointer cfg hwf hfast stride base extent
    threadId tb indices permuteFn 1 (by omega)
  rw [Function.iterate_one] at hpointer1
  refine ⟨⟨by rw [hcp, hcnt], hcr⟩, ⟨hstate1.2.1, hstate1.2.2.1, hstate1.2.2.2.1, ?_⟩,
    ?_, (tileAdvance_iterate_state cfg hwf params base extent threadId tb
      indices permuteFn n hn).2.2.1⟩
  · rw [hpointer1]
    simp
  · intro j hj
    have hSj := tileAdvance_iterate_pointer cfg hwf hfast stride base extent
      threadId tb indices permuteFn j hj
    have hSj1 := tileAdvance_iterate_pointer cfg hwf hfast stride base extent
      threadId tb indices permuteFn (j + 1) (by omega)
    rw [Function.iterate_succ_apply'] at hSj1
    constructor
    · rw [hSj1, hSj]
      have hc1 : ((j + 1 - 1 : Nat) : Int) = ((j - 1 : Nat) : Int) + 1 := by omega
      rw [hc1]
      ring
    · have hPj := tileAdvance_iterate_state cfg hwf params base extent threadId
        tb indices permuteFn j hj
      have hPj1 := tileAdvance_iterate_state cfg hwf params base extent threadId
        tb indices permuteFn (j + 1) (by omega)
      rw [Function.iterate_succ_apply'] at hPj1
      rw [hPj1.2.1, hPj.2.1]

/-- Witness for C3 at a concrete configuration with three tile advances. -/
theorem C3_witness :
    ((tileAdvance cfgB)^[3]
        (construct cfgB (paramsOf cfgB 8) 0 ⟨7, 7⟩ 0 ⟨0, 0⟩ (fun _ => 0)
          (fun _ => 0))).thePredicates.recomputeCount = 2 :=
  (C3_phase_once cfgB (by decide) (by decide) 8 0 ⟨7, 7⟩ 0 ⟨0, 0⟩ (fun _ => 0)
    (fun _ => 0) 3 (by decide)).2.2.2

/-! ### Claim C2: pointer / coordinate agreement -/

/-- Fast-path `get()`, in exact byte arithmetic for byte-aligned elements. -/
theorem get_fast (cfg : Config) (hfast : cfg.gather = false ∧ cfg.permute = false)
    {m : Nat} (hm : cfg.elementBits = 8 * m) (it : Iterator) :
    it.get cfg = some (it.pointer
      + (m : Int) * ((it.thePredicates.iterationContiguous : Int) * cfg.deltaContiguous)
      + (m : Int) * ((it.thePredicates.iterationVector : Int) * cfg.accessElements)) := by
  unfold Iterator.get
  rw [if_neg (by simp [hfast.1, hfast.2])]
  have h1 : Int.tdiv ((it.thePredicates.iterationContiguous : Int)
      * ((cfg.deltaContiguous * cfg.elementBits : Nat) : Int)) 8
      = (m : Int) * ((it.thePredicates.iterationContiguous : Int) * cfg.deltaContiguous) := by
    rw [hm,
      show ((it.thePredicates.iterationContiguous : Int)
          * ((cfg.deltaContiguous * (8 * m) : Nat) : Int))
        = 8 * ((m : Int) * ((it.thePredicates.iterationContiguous : Int) * cfg.deltaContiguous))
        from by push_cast; ring]
    exact tdiv_eight _
  have h2 : ((it.thePredicates.iterationVector : Int)) * ((accessBytes cfg : Nat) : Int)
      = (m : Int) * ((it.thePredicates.iterationVector : Int) * cfg.accessElements) := by
    rw [accessBytes_exact cfg hm]
    push_cast
    ring
  rw [h1, h2]

/-- Gather-path `get()`: the offset is resolved from the tracked coordinate
and the index array. -/
theorem get_gather (cfg : Config) (hg : cfg.gather = true)
    (hp : cfg.permute = false) (it : Iterator) (hval : it.valid cfg = true) :
    it.get cfg = some (it.pointer + toBytes cfg
      (it.indices (it.coordOffset.strided
          + (it.thePredicates.iterationStrided : Int) * cfg.deltaStrided)
        * it.params.stride
        + ((it.thePredicates.iterationContiguous : Int) * cfg.deltaContiguous
          + (it.thePredicates.iterationVector : Int) * cfg.accessElements))) := by
  unfold Iterator.get
  rw [if_pos (Or.inl hg)]
  rw [if_neg (by unfold Iterator.valid at hval; simp [hval])]
  dsimp only
  rw [if_neg (by simp [hp]), if_pos hg, if_neg (by simp [hp])]
  rw [show (0 : Int) + (it.thePredicates.iterationContiguous : Int) * cfg.deltaContiguous
      + (it.thePredicates.iterationVector : Int) * cfg.accessElements
    = (it.thePredicates.iterationContiguous : Int) * cfg.deltaContiguous
      + (it.thePredicates.iterationVector : Int) * cfg.accessElements from by ring]

/-- Permute-path `get()`: the offset is resolved through the permutation
function from the tracked coordinate (with the strided index looked up
through the index array when gather is also active). -/
theorem get_permute (cfg : Config) (hp : cfg.permute = true) (it : Iterator)
    (hval : it.valid cfg = true) :
    it.get cfg = some (it.pointer + toBytes cfg
      (it.permuteFn
        ⟨it.coordOffset.contiguous
            + (it.thePredicates.iterationContiguous : Int) * cfg.deltaContiguous
            + (it.thePredicates.iterationVector : Int) * cfg.accessElements,
          (if cfg.gather = true then
            it.indices (it.coordOffset.strided
              + (it.thePredicates.iterationStrided : Int) * cfg.deltaStrided)
          else
            it.coordOffset.strided
              + (it.thePredicates.iterationStrided : Int) * cfg.deltaStrided)⟩)) := by
  unfold Iterator.get
  rw [if_pos (Or.inr hp)]
  rw [if_neg (by unfold Iterator.valid at hval; simp [hval])]
  dsimp only
  rw [if_pos hp, if_pos hp]

/-- C2: after any number of `operator++` advances, the address returned by
`get()` is the base pointer plus the layout-mapped byte offset of the
cursor's logical coordinate (thread offset plus iteration delta) — on the
fast pointer-arithmetic path directly, on the gather path with the strided
index resolved through the index array, and on the permute path with the
offset resolved through the permutation function. -/
theorem C2_pointer_coordinate_agreement (cfg : Config) (hwf : cfg.wf)
    (m : Nat) (hm : cfg.elementBits = 8 * m) (stride base : Int)
    (extent : TensorCoord) (threadId : Int) (tb : TensorCoord)
    (indices : Int → Int) (permuteFn : TensorCoord → Int) (k : Nat)
    (S : Iterator)
    (hS : S = (Iterator.incr cfg)^[k]
      (construct cfg (paramsOf cfg stride) base extent threadId tb indices
        permuteFn)) :
    (cfg.gather = false ∧ cfg.permute = false →
      S.get cfg = some (base + toBytes cfg (layoutFn stride
        (S.thePredicates.threadOffset
          + accessCoord cfg S.thePredicates.iterationVector
              S.thePredicates.iterationContiguous
              S.thePredicates.iterationStrided)))) ∧
    (cfg.gather = true → cfg.permute = false → S.valid cfg = true →
      S.get cfg = some (base + toBytes cfg (layoutFn stride
        ⟨(S.thePredicates.threadOffset
            + accessCoord cfg S.thePredicates.iterationVector
                S.thePredicates.iterationContiguous
                S.thePredicates.iterationStrided).contiguous,
          indices ((S.thePredicates.threadOffset
            + accessCoord cfg S.thePredicates.iterationVector
                S.thePredicates.iterationContiguous
                S.thePredicates.iterationStrided).strided)⟩))) ∧
    (cfg.permute = true → S.valid cfg = true →
      S.get cfg = some (base + toBytes cfg (permuteFn
        ⟨(S.thePredicates.threadOffset
            + accessCoord cfg S.thePredicates.iterationVector
                S.thePredicates.iterationContiguous
                S.thePredicates.iterationStrided).contiguous,
          if cfg.gather = true then
            indices ((S.thePredicates.threadOffset
              + accessCoord cfg S.thePredicates.iterationVector
                  S.thePredicates.iterationContiguous
                  S.thePredicates.iterationStrided).strided)
          else
            (S.thePredicates.threadOffset
              + accessCoord cfg S.thePredicates.iterationVector
                  S.thePredicates.iterationContiguous
                  S.thePredicates.iterationStrided).strided⟩))) := by
  subst hS
  set params := paramsOf cfg stride with hparams
  set it0 := construct cfg params base extent threadId tb indices permuteFn with hit0
  obtain ⟨hcp, hcr, hcpar, hcind, hcperm⟩ :=
    construct_spec cfg params base extent threadId tb indices permuteFn
  obtain ⟨hto, hext, hroff, hpred, hv0, hc0, hs0, hcnt⟩ :=
    setPredicates_spec cfg extent threadId tb
  have hv0q : it0.thePredicates.iterationVector = 0 := by rw [hcp, hv0]
  have hc0q : it0.thePredicates.iterationContiguous = 0 := by rw [hcp, hc0]
  have hs0q : it0.thePredicates.iterationStrided = 0 := by rw [hcp, hs0]
  obtain ⟨w1, w2, w3, w4, w5, w6, w7, w8, w9, w10⟩ :=
    incr_iterate_preserves cfg it0 k
  have hTOs : ((Iterator.incr cfg)^[k] it0).thePredicates.threadOffset
      = tb + cfg.initialOffset threadId := by rw [w2, hcp, hto]
  have hstreq : params.stride = stride := rfl
  refine ⟨?_, ?_, ?_⟩
  · intro hfast
    obtain ⟨hv, hc, hs⟩ := incr_iterate_cursor cfg hwf it0 hv0q hc0q hs0q k
    rw [get_fast cfg hfast hm]
    rw [incr_iterate_pointer cfg hwf hfast stride it0 (hcpar.trans hparams)
      hv0q hc0q hs0q k]
    rw [construct_pointer_fast cfg params base extent threadId tb indices
      permuteFn hfast]
    have hincS : (paramsOf cfg stride).incStrided
        = (m : Int) * (stride * cfg.deltaStrided) := toBytes_exact cfg hm _
    rw [hincS, hTOs, hv, hc, hs]
    unfold layoutFn accessCoord
    rw [toBytes_exact cfg hm, toBytes_exact cfg hm, hstreq]
    simp only [TensorCoord.add_contiguous, TensorCoord.add_strided]
    push_cast
    ring
  · intro hg hp hval
    rw [get_gather cfg hg hp _ hval]
    rw [incr_iterate_pointer_gp cfg it0 (Or.inl hg) k]
    rw [(construct_gather cfg params base extent threadId tb indices permuteFn
      hg hp).2]
    rw [w8, (construct_gather cfg params base extent threadId tb indices
      permuteFn hg hp).1]
    rw [w9, hcind, w7, hcpar, hstreq, hTOs]
    have harg : (tb + cfg.initialOffset threadId).strided
        + (((Iterator.incr cfg)^[k] it0).thePredicates.iterationStrided : Int)
          * cfg.deltaStrided
        = ((tb + cfg.initialOffset threadId)
            + accessCoord cfg ((Iterator.incr cfg)^[k] it0).thePredicates.iterationVector
                ((Iterator.incr cfg)^[k] it0).thePredicates.iterationContiguous
                ((Iterator.incr cfg)^[k] it0).thePredicates.iterationStrided).strided := by
      unfold accessCoord
      simp only [TensorCoord.add_strided]
      push_cast
      ring
    rw [harg]
    unfold layoutFn accessCoord
    rw [toBytes_exact cfg hm, toBytes_exact cfg hm, toBytes_exact cfg hm]
    simp only [TensorCoord.add_contiguous, TensorCoord.add_strided]
    push_cast
    ring
  · intro hp hval
    rw [get_permute cfg hp _ hval]
    rw [incr_iterate_pointer_gp cfg it0 (Or.inr hp) k]
    rw [(construct_permute cfg params base extent threadId tb indices permuteFn
      hp).2]
    rw [w8, (construct_permute cfg params base extent threadId tb indices
      permuteFn hp).1]
    rw [w9, hcind, w10, hcperm, hTOs]
    have harg1 : (tb + cfg.initialOffset threadId).contiguous
        + (((Iterator.incr cfg)^[k] it0).thePredicates.iterationContiguous : Int)
          * cfg.deltaContiguous
        + (((Iterator.incr cfg)^[k] it0).thePredicates.iterationVector : Int)
          * cfg.accessElements
        = ((tb + cfg.initialOffset threadId)
            + accessCoord cfg ((Iterator.incr cfg)^[k] it0).thePredicates.iterationVector
                ((Iterator.incr cfg)^[k] it0).thePredicates.iterationContiguous
                ((Iterator.incr cfg)^[k] it0).thePredicates.iterationStrided).contiguous := by
      unfold accessCoord
      simp only [TensorCoord.add_contiguous]
      push_cast
      ring
    have harg2 : (tb + cfg.initialOffset threadId).strided
        + (((Iterator.incr cfg)^[k] it0).thePredicates.iterationStrided : Int)
          * cfg.deltaStrided
        = ((tb + cfg.initialOffset threadId)
            + accessCoord cfg ((Iterator.incr cfg)^[k] it0).thePredicates.iterationVector
                ((Iterator.incr cfg)^[k] it0).thePredicates.iterationContiguous
                ((Iterator.incr cfg)^[k] it0).thePredicates.iterationStrided).strided := by
      unfold accessCoord
      simp only [TensorCoord.add_strided]
      push_cast
      ring
    rw [harg1, harg2]

/-- Witness for C2: the fast path of a concrete iterator after three
advances returns the layout-mapped address of its cursor coordinate. -/
theorem C2_witness :
    ((Iterator.incr cfgB)^[3]
        (construct cfgB (paramsOf cfgB 8) 0 ⟨7, 3⟩ 0 ⟨0, 0⟩ (fun i => i)
          (fun _ => 0))).get cfgB
      = some ((0 : Int) + toBytes cfgB (layoutFn 8
          (((Iterator.incr cfgB)^[3]
              (construct cfgB (paramsOf cfgB 8) 0 ⟨7, 3⟩ 0 ⟨0, 0⟩ (fun i => i)
                (fun _ => 0))).thePredicates.threadOffset
            + accessCoord cfgB
                ((Iterator.incr cfgB)^[3]
                  (construct cfgB (paramsOf cfgB 8) 0 ⟨7, 3⟩ 0 ⟨0, 0⟩ (fun i => i)
                    (fun _ => 0))).thePredicates.iterationVector
                ((Iterator.incr cfgB)^[3]
                  (construct cfgB (paramsOf cfgB 8) 0 ⟨7, 3⟩ 0 ⟨0, 0⟩ (fun i => i)
                    (fun _ => 0))).thePredicates.iterationContiguous
                ((Iterator.incr cfgB)^[3]
                  (construct cfgB (paramsOf cfgB 8) 0 ⟨7, 3⟩ 0 ⟨0, 0⟩ (fun i => i)
                    (fun _ => 0))).thePredicates.iterationStrided))) :=
  (C2_pointer_coordinate_agreement cfgB (by decide) 4 (by decide) 8 0 ⟨7, 3⟩ 0
    ⟨0, 0⟩ (fun i => i) (fun _ => 0) 3 _ rfl).1 (by decide)

/-! ### Claim C1: bounds fidelity -/

/-- C1 counterexample: the first visited access of a concrete iterator has
its true coordinate `(0, 2)` inside the extent `[0,4) x [0,5)`, yet
`valid()` is false — the first tile checks the residue-adjusted extent
(whose strided bound here is 1), not the tensor extent, so the claimed
"valid iff inside the tensor extent" equivalence fails. -/
theorem C1_counterexample :
    ((construct cfgA (paramsOf cfgA 4) 0 ⟨4, 5⟩ 0 ⟨0, 0⟩ (fun _ => 0)
        (fun _ => 0)).valid cfgA = false) ∧
    ((construct cfgA (paramsOf cfgA 4) 0 ⟨4, 5⟩ 0 ⟨0, 0⟩ (fun _ => 0)
        (fun _ => 0)).thePredicates.threadOffset
      + accessCoord cfgA
          (construct cfgA (paramsOf cfgA 4) 0 ⟨4, 5⟩ 0 ⟨0, 0⟩ (fun _ => 0)
            (fun _ => 0)).thePredicates.iterationVector
          (construct cfgA (paramsOf cfgA 4) 0 ⟨4, 5⟩ 0 ⟨0, 0⟩ (fun _ => 0)
            (fun _ => 0)).thePredicates.iterationContiguous
          (construct cfgA (paramsOf cfgA 4) 0 ⟨4, 5⟩ 0 ⟨0, 0⟩ (fun _ => 0)
            (fun _ => 0)).thePredicates.iterationStrided
      = ⟨0, 2⟩) ∧
    ((0 : Int) ≤ 0 ∧ (0 : Int) < 4 ∧ (0 : Int) ≤ 2 ∧ (2 : Int) < 5) := by
  refine ⟨by decide, by decide, by decide⟩

/-- C1 amended: during a monotone full traversal (non-negative threadblock
and thread-map offsets, a thread-map access pattern that stays inside one
tile along the advance rank, and tile index within the tensor), `valid()`
holds iff the access's true coordinate lies inside the residue-adjusted
extent on the first tile, and iff it lies inside `[0, E.contiguous) x
[0, E.strided)` on every steady-state tile. -/
theorem C1_amended (cfg : Config) (hwf : cfg.wf) (params : Params)
    (base : Int) (extent : TensorCoord) (threadId : Int) (tb : TensorCoord)
    (indices : Int → Int) (permuteFn : TensorCoord → Int)
    (htbc : 0 ≤ tb.contiguous) (htbs : 0 ≤ tb.strided)
    (himc : 0 ≤ (cfg.initialOffset threadId).contiguous)
    (hims : 0 ≤ (cfg.initialOffset threadId).strided)
    (hEadv : advCoord cfg tb ≤ advCoord cfg extent)
    (hfit : ∀ v c s : Nat, v < cfg.accessesPerVector →
      c < cfg.itersContiguous → s < cfg.itersStrided →
      advCoord cfg (cfg.initialOffset threadId + accessCoord cfg v c s)
        < (advShape cfg : Int))
    (j k : Nat)
    (hj : 1 ≤ j → advCoord cfg tb + advCoord cfg (residueInfo cfg extent tb).1
        + (j : Int) * (advShape cfg : Int) ≤ advCoord cfg extent)
    (S : Iterator)
    (hS : S = (Iterator.incr cfg)^[k] ((tileAdvance cfg)^[j]
      (construct cfg params base extent threadId tb indices permuteFn))) :
    (j = 0 →
      (S.valid cfg = true ↔
        (0 ≤ (S.thePredicates.threadOffset
            + accessCoord cfg S.thePredicates.iterationVector
                S.thePredicates.iterationContiguous S.thePredicates.iterationStrided
            + TensorCoord.nsmul (j - 1) (advTileVec cfg)).contiguous ∧
         (S.thePredicates.threadOffset
            + accessCoord cfg S.thePredicates.iterationVector
                S.thePredicates.iterationContiguous S.thePredicates.iterationStrided
            + TensorCoord.nsmul (j - 1) (advTileVec cfg)).contiguous
           < (residueInfo cfg extent tb).2.contiguous ∧
         0 ≤ (S.thePredicates.threadOffset
            + accessCoord cfg S.thePredicates.iterationVector
                S.thePredicates.iterationContiguous S.thePredicates.iterationStrided
            + TensorCoord.nsmul (j - 1) (advTileVec cfg)).strided ∧
         (S.thePredicates.threadOffset
            + accessCoord cfg S.thePredicates.iterationVector
                S.thePredicates.iterationContiguous S.thePredicates.iterationStrided
            + TensorCoord.nsmul (j - 1) (advTileVec cfg)).strided
           < (residueInfo cfg extent tb).2.strided))) ∧
    (1 ≤ j →
      (S.valid cfg = true ↔
        (0 ≤ (S.thePredicates.threadOffset
            + accessCoord cfg S.thePredicates.iterationVector
                S.thePredicates.iterationContiguous S.thePredicates.iterationStrided
            + TensorCoord.nsmul (j - 1) (advTileVec cfg)).contiguous ∧
         (S.thePredicates.threadOffset
            + accessCoord cfg S.thePredicates.iterationVector
                S.thePredicates.iterationContiguous S.thePredicates.iterationStrided
            + TensorCoord.nsmul (j - 1) (advTileVec cfg)).contiguous
           < extent.contiguous ∧
         0 ≤ (S.thePredicates.threadOffset
            + accessCoord cfg S.thePredicates.iterationVector
                S.thePredicates.iterationContiguous S.thePredicates.iterationStrided
            + TensorCoord.nsmul (j - 1) (advTileVec cfg)).strided ∧
         (S.thePredicates.threadOffset
            + accessCoord cfg S.thePredicates.iterationVector
                S.thePredicates.iterationContiguous S.thePredicates.iterationStrided
            + TensorCoord.nsmul (j - 1) (advTileVec cfg)).strided
           < extent.strided))) := by
  subst hS
  set it0 := construct cfg params base extent threadId tb indices permuteFn with hit0
  obtain ⟨hcp, hcr, hcpar, _, _⟩ :=
    construct_spec cfg params base extent threadId tb indices permuteFn
  obtain ⟨hto, hext, hroff, hpred, hv0, hc0, hs0, hcnt⟩ :=
    setPredicates_spec cfg extent threadId tb
  constructor
  · -- first (residue) tile
    intro hj0
    subst hj0
    rw [Function.iterate_zero_apply]
    obtain ⟨w1, w2, w3, w4, w5, w6, w7, w8, w9, w10⟩ :=
      incr_iterate_preserves cfg it0 k
    have hv0q : it0.thePredicates.iterationVector = 0 := by rw [hcp, hv0]
    have hc0q : it0.thePredicates.iterationContiguous = 0 := by rw [hcp, hc0]
    have hs0q : it0.thePredicates.iterationStrided = 0 := by rw [hcp, hs0]
    obtain ⟨hv, hc, hs⟩ := incr_iterate_cursor cfg hwf it0 hv0q hc0q hs0q k
    have hprv : ((Iterator.incr cfg)^[k] it0).thePredicates.predicates
        = computePredicatesWords cfg (tb + cfg.initialOffset threadId)
            (residueInfo cfg extent tb).2 false := by
      rw [w1, hcp, hpred]
    have hvalid : ((Iterator.incr cfg)^[k] it0).valid cfg
        = guardAtCursor cfg (tb + cfg.initialOffset threadId)
            (residueInfo cfg extent tb).2 false
            ((Iterator.incr cfg)^[k] it0).thePredicates.iterationVector
            ((Iterator.incr cfg)^[k] it0).thePredicates.iterationContiguous
            ((Iterator.incr cfg)^[k] it0).thePredicates.iterationStrided :=
      valid_computePredicates cfg _ _ _ false hprv
        (by rw [hv]; exact Nat.mod_lt _ hwf.1)
        (by rw [hc]; exact Nat.mod_lt _ hwf.2.1)
        (by rw [hs]; exact Nat.mod_lt _ hwf.2.2.1)
    rw [hvalid, w2, hcp, hto]
    unfold guardAtCursor TensorCoord.nsmul accessCoord
    simp only [TensorCoord.add_contiguous, TensorCoord.add_strided,
      Nat.zero_sub, Nat.cast_zero, zero_mul, add_zero, Bool.false_eq_true,
      if_false, decide_eq_true_eq]
    omega
  · -- steady-state tiles
    intro hj1
    obtain ⟨i1, i2, i3, i4, i5, i6, i7, i8⟩ :=
      tileAdvance_iterate_state cfg hwf params base extent threadId tb indices
        permuteFn j hj1
    set q := (tileAdvance cfg)^[j] it0 with hq
    obtain ⟨w1, w2, w3, w4, w5, w6, w7, w8, w9, w10⟩ :=
      incr_iterate_preserves cfg q k
    obtain ⟨hv, hc, hs⟩ := incr_iterate_cursor cfg hwf q i5 i6 i7 k
    have hprv : ((Iterator.incr cfg)^[k] q).thePredicates.predicates
        = computePredicatesWords cfg
            ((tb + cfg.initialOffset threadId) + (residueInfo cfg extent tb).1)
            extent true := by
      rw [w1, i2]
    have hvalid : ((Iterator.incr cfg)^[k] q).valid cfg
        = guardAtCursor cfg
            ((tb + cfg.initialOffset threadId) + (residueInfo cfg extent tb).1)
            extent true
            ((Iterator.incr cfg)^[k] q).thePredicates.iterationVector
            ((Iterator.incr cfg)^[k] q).thePredicates.iterationContiguous
            ((Iterator.incr cfg)^[k] q).thePredicates.iterationStrided :=
      valid_computePredicates cfg _ _ _ true hprv
        (by rw [hv]; exact Nat.mod_lt _ hwf.1)
        (by rw [hc]; exact Nat.mod_lt _ hwf.2.1)
        (by rw [hs]; exact Nat.mod_lt _ hwf.2.2.1)
    have hfitk := hfit
      (((Iterator.incr cfg)^[k] q).thePredicates.iterationVector)
      (((Iterator.incr cfg)^[k] q).thePredicates.iterationContiguous)
      (((Iterator.incr cfg)^[k] q).thePredicates.iterationStrided)
      (by rw [hv]; exact Nat.mod_lt _ hwf.1)
      (by rw [hc]; exact Nat.mod_lt _ hwf.2.1)
      (by rw [hs]; exact Nat.mod_lt _ hwf.2.2.1)
    have hjk := hj hj1
    have hjcast : (j : Int) = ((j - 1 : Nat) : Int) + 1 := by omega
    rw [hvalid, w2, i1]
    rcases hwf.2.2.2 with h0 | h1
    · -- advance rank 0 (contiguous)
      have hrb : (residueInfo cfg extent tb).1
          = ⟨(if Int.tmod (extent.contiguous - tb.contiguous) cfg.shapeContiguous = 0
              then (cfg.shapeContiguous : Int)
              else Int.tmod (extent.contiguous - tb.contiguous) cfg.shapeContiguous), 0⟩ := by
        unfold residueInfo
        rw [if_neg (by omega)]
      have hr0 : 0 ≤ (residueInfo cfg extent tb).1.contiguous := by
        rw [hrb]
        unfold advCoord at hEadv
        rw [if_pos h0] at hEadv
        dsimp only
        split_ifs with hz
        · positivity
        · exact Int.tmod_nonneg _ (by omega)
      unfold advCoord advShape at hjk hfitk
      simp only [if_pos h0] at hjk hfitk
      unfold guardAtCursor
      rw [if_pos rfl, if_pos h0]
      unfold advTileVec
      rw [if_pos h0]
      unfold TensorCoord.nsmul accessCoord
      unfold accessCoord at hfitk
      simp only [TensorCoord.add_contiguous, TensorCoord.add_strided,
        decide_eq_true_eq] at hfitk ⊢
      rw [hrb] at hr0 ⊢
      rw [hrb] at hjk
      dsimp only at hr0 hjk ⊢
      have hsplit : (j : Int) * (cfg.shapeContiguous : Int)
          = ((j - 1 : Nat) : Int) * (cfg.shapeContiguous : Int)
            + (cfg.shapeContiguous : Int) := by
        rw [hjcast]; ring
      have hnn : 0 ≤ ((j - 1 : Nat) : Int) * (cfg.shapeContiguous : Int) := by
        positivity
      omega
    · -- advance rank 1 (strided)
      have hrb : (residueInfo cfg extent tb).1
          = ⟨0, (if Int.tmod (extent.strided - tb.strided) cfg.shapeStrided = 0
              then (cfg.shapeStrided : Int)
              else Int.tmod (extent.strided - tb.strided) cfg.shapeStrided)⟩ := by
        unfold residueInfo
        rw [if_pos (by omega)]
      have hr0 : 0 ≤ (residueInfo cfg extent tb).1.strided := by
        rw [hrb]
        unfold advCoord at hEadv
        rw [if_neg (by omega)] at hEadv
        dsimp only
        split_ifs with hz
        · positivity
        · exact Int.tmod_nonneg _ (by omega)
      have hne : ¬ cfg.advanceRank = 0 := by omega
      unfold advCoord advShape at hjk hfitk
      simp only [if_neg hne] at hjk hfitk
      unfold guardAtCursor
      rw [if_pos rfl, if_neg hne]
      unfold advTileVec
      rw [if_neg hne]
      unfold TensorCoord.nsmul accessCoord
      unfold accessCoord at hfitk
      simp only [TensorCoord.add_contiguous, TensorCoord.add_strided,
        decide_eq_true_eq] at hfitk ⊢
      rw [hrb] at hr0 ⊢
      rw [hrb] at hjk
      dsimp only at hr0 hjk ⊢
      have hsplit : (j : Int) * (cfg.shapeStrided : Int)
          = ((j - 1 : Nat) : Int) * (cfg.shapeStrided : Int)
            + (cfg.shapeStrided : Int) := by
        rw [hjcast]; ring
      have hnn : 0 ≤ ((j - 1 : Nat) : Int) * (cfg.shapeStrided : Int) := by
        positivity
      omega

/-- Witness for C1: the amended equivalence at a concrete steady-state tile
of a concrete iterator. -/
theorem C1_witness :
    ((Iterator.incr cfgB)^[2] ((tileAdvance cfgB)^[1]
        (construct cfgB (paramsOf cfgB 8) 0 ⟨7, 7⟩ 0 ⟨0, 0⟩ (fun _ => 0)
          (fun _ => 0)))).valid cfgB = true ↔
      (0 ≤ (((Iterator.incr cfgB)^[2] ((tileAdvance cfgB)^[1]
            (construct cfgB (paramsOf cfgB 8) 0 ⟨7, 7⟩ 0 ⟨0, 0⟩ (fun _ => 0)
              (fun _ => 0)))).thePredicates.threadOffset
          + accessCoord cfgB
              ((Iterator.incr cfgB)^[2] ((tileAdvance cfgB)^[1]
                (construct cfgB (paramsOf cfgB 8) 0 ⟨7, 7⟩ 0 ⟨0, 0⟩ (fun _ => 0)
                  (fun _ => 0)))).thePredicates.iterationVector
              ((Iterator.incr cfgB)^[2] ((tileAdvance cfgB)^[1]
                (construct cfgB (paramsOf cfgB 8) 0 ⟨7, 7⟩ 0 ⟨0, 0⟩ (fun _ => 0)
                  (fun _ => 0)))).thePredicates.iterationContiguous
              ((Iterator.incr cfgB)^[2] ((tileAdvance cfgB)^[1]
                (construct cfgB (paramsOf cfgB 8) 0 ⟨7, 7⟩ 0 ⟨0, 0⟩ (fun _ => 0)
                  (fun _ => 0)))).thePredicates.iterationStrided
          + TensorCoord.nsmul (1 - 1) (advTileVec cfgB)).contiguous ∧
       (((Iterator.incr cfgB)^[2] ((tileAdvance cfgB)^[1]
            (construct cfgB (paramsOf cfgB 8) 0 ⟨7, 7⟩ 0 ⟨0, 0⟩ (fun _ => 0)
              (fun _ => 0)))).thePredicates.threadOffset
          + accessCoord cfgB
              ((Iterator.incr cfgB)^[2] ((tileAdvance cfgB)^[1]
                (construct cfgB (paramsOf cfgB 8) 0 ⟨7, 7⟩ 0 ⟨0, 0⟩ (fun _ => 0)
                  (fun _ => 0)))).thePredicates.iterationVector
              ((Iterator.incr cfgB)^[2] ((tileAdvance cfgB)^[1]
                (construct cfgB (paramsOf cfgB 8) 0 ⟨7, 7⟩ 0 ⟨0, 0⟩ (fun _ => 0)
                  (fun _ => 0)))).thePredicates.iterationContiguous
              ((Iterator.incr cfgB)^[2] ((tileAdvance cfgB)^[1]
                (construct cfgB (paramsOf cfgB 8) 0 ⟨7, 7⟩ 0 ⟨0, 0⟩ (fun _ => 0)
                  (fun _ => 0)))).thePredicates.iterationStrided
          + TensorCoord.nsmul (1 - 1) (advTileVec cfgB)).contiguous < (7 : Int) ∧
       0 ≤ (((Iterator.incr cfgB)^[2] ((tileAdvance cfgB)^[1]
            (construct cfgB (paramsOf cfgB 8) 0 ⟨7, 7⟩ 0 ⟨0, 0⟩ (fun _ => 0)
              (fun _ => 0)))).thePredicates.threadOffset
          + accessCoord cfgB
              ((Iterator.incr cfgB)^[2] ((tileAdvance cfgB)^[1]
                (construct cfgB (paramsOf cfgB 8) 0 ⟨7, 7⟩ 0 ⟨0, 0⟩ (fun _ => 0)
                  (fun _ => 0)))).thePredicates.iterationVector
              ((Iterator.incr cfgB)^[2] ((tileAdvance cfgB)^[1]
                (construct cfgB (paramsOf cfgB 8) 0 ⟨7, 7⟩ 0 ⟨0, 0⟩ (fun _ => 0)
                  (fun _ => 0)))).thePredicates.iterationContiguous
              ((Iterator.incr cfgB)^[2] ((tileAdvance cfgB)^[1]
                (construct cfgB (paramsOf cfgB 8) 0 ⟨7, 7⟩ 0 ⟨0, 0⟩ (fun _ => 0)
                  (fun _ => 0)))).thePredicates.iterationStrided
          + TensorCoord.nsmul (1 - 1) (advTileVec cfgB)).strided ∧
       (((Iterator.incr cfgB)^[2] ((tileAdvance cfgB)^[1]
            (construct cfgB (paramsOf cfgB 8) 0 ⟨7, 7⟩ 0 ⟨0, 0⟩ (fun _ => 0)
              (fun _ => 0)))).thePredicates.threadOffset
          + accessCoord cfgB
              ((Iterator.incr cfgB)^[2] ((tileAdvance cfgB)^[1]
                (construct cfgB (paramsOf cfgB 8) 0 ⟨7, 7⟩ 0 ⟨0, 0⟩ (fun _ => 0)
                  (fun _ => 0)))).thePredicates.iterationVector
              ((Iterator.incr cfgB)^[2] ((tileAdvance cfgB)^[1]
                (construct cfgB (paramsOf cfgB 8) 0 ⟨7, 7⟩ 0 ⟨0, 0⟩ (fun _ => 0)
                  (fun _ => 0)))).thePredicates.iterationContiguous
              ((Iterator.incr cfgB)^[2] ((tileAdvance cfgB)^[1]
                (construct cfgB (paramsOf cfgB 8) 0 ⟨7, 7⟩ 0 ⟨0, 0⟩ (fun _ => 0)
                  (fun _ => 0)))).thePredicates.iterationStrided
          + TensorCoord.nsmul (1 - 1) (advTileVec cfgB)).strided < (7 : Int)) :=
  (C1_amended cfgB (by decide) (paramsOf cfgB 8) 0 ⟨7, 7⟩ 0 ⟨0, 0⟩ (fun _ => 0)
      (fun _ => 0) (by decide) (by decide) (by decide) (by decide) (by decide)
      (by intro v c s hv hc hs
          have hv2 : v < 2 := hv
          have hc2 : c < 2 := hc
          have hs2 : s < 2 := hs
          interval_cases v <;> interval_cases c <;> interval_cases s <;> decide)
      1 2
      (by intro h
          decide)
      _ rfl).2 (by decide)

/-! ### Claim C8: layout adapters are thin coordinate-translating wrappers -/

theorem rmApply_eq (cfg : Config) (it : Iterator) (op : MatrixOp) :
    rmApply cfg it op = plApply cfg it (rmOpToPL op) := by
  cases op <;> rfl

theorem rmRun_eq_plRun (cfg : Config) (it : Iterator) (ops : List MatrixOp) :
    rmRun cfg it ops = plRun cfg it (ops.map rmOpToPL) := by
  induction ops generalizing it with
  | nil => rfl
  | cons op rest ih =>
    unfold rmRun plRun
    rw [List.map_cons, List.foldl_cons, List.foldl_cons, rmApply_eq]
    exact ih (plApply cfg it (rmOpToPL op))

/-- C8: the row-major specialization is the canonical pitch-linear iterator
applied to the axis-swapped extent, threadblock offset and tile offset (and
any sequence of interface operations run through the row-major adapter
equals the same sequence run on the pitch-linear iterator with tile offsets
transposed); the column-major and interleaved specializations likewise only
translate coordinates — the interleaved ones scale one axis by the
interleave factor and divide the other by it — and delegate every operation
to the underlying pitch-linear iterator, introducing no new algorithmic
behavior. -/
theorem C8_layout_adapters (cfg : Config) (K : Nat) (params : Params)
    (base : Int) (threadId : Int) (indices : Int → Int)
    (permuteFn : TensorCoord → Int) (e tb : MatrixCoord) (it : Iterator)
    (t : MatrixCoord) (ops : List MatrixOp) :
    (rm_construct cfg params base e threadId tb indices permuteFn
        = construct cfg params base ⟨e.column, e.row⟩ threadId
            ⟨tb.column, tb.row⟩ indices permuteFn) ∧
    (rm_add_tile_offset cfg it t = it.add_tile_offset cfg ⟨t.column, t.row⟩) ∧
    (cm_construct cfg params base e threadId tb indices permuteFn
        = construct cfg params base ⟨e.row, e.column⟩ threadId
            ⟨tb.row, tb.column⟩ indices permuteFn) ∧
    (cm_add_tile_offset cfg it t = it.add_tile_offset cfg ⟨t.row, t.column⟩) ∧
    (rmi_construct cfg K params base e threadId tb indices permuteFn
        = construct cfg params base
            ⟨e.column * (K : Int), Int.tdiv e.row (K : Int)⟩ threadId
            ⟨tb.column * (K : Int), Int.tdiv tb.row (K : Int)⟩ indices
            permuteFn) ∧
    (rmi_add_tile_offset cfg it t = it.add_tile_offset cfg ⟨t.column, t.row⟩) ∧
    (cmi_construct cfg K params base e threadId tb indices permuteFn
        = construct cfg params base
            ⟨e.row * (K : Int), Int.tdiv e.column (K : Int)⟩ threadId
            ⟨tb.row * (K : Int), Int.tdiv tb.column (K : Int)⟩ indices
            permuteFn) ∧
    (cmi_add_tile_offset cfg it t = it.add_tile_offset cfg ⟨t.row, t.column⟩) ∧
    (rmRun cfg it ops = plRun cfg it (ops.map rmOpToPL)) :=
  ⟨rfl, rfl, rfl, rfl, rfl, rfl, rfl, rfl, rmRun_eq_plRun cfg it ops⟩

end CutlassPTAI
